import Mathlib

/-!
Verification of the AI-Tutor retrieval-and-synthesis pipeline.

This file gives a shallow embedding of the core of the repository
(`Backend/retriever.py`, `Backend/quiz_generator.py`, `Backend/planner.py`,
`Backend/agents/planner.py`, `Backend/agents/explainer.py`,
`Backend/agents/retrieval_agent.py`, `Backend/progress_db.py`) and proves
the testable properties stated in the specification against it.

Modelling conventions:
* Python `str` is modelled by `String` (a list of characters).  The text in
  this development is ASCII, on which `unicodedata.normalize("NFC", ·)` is
  the identity, so NFC normalization is modelled as the identity.
* Python float ratio comparisons (`x / n > 0.28`) are modelled exactly over
  the integers by cross-multiplication; the decisions agree with the source
  away from float-rounding boundary values, and no claim depends on a
  boundary value.
* External effects (the FAISS nearest-neighbour search, the sentence
  embedding, the regular-expression engine for the quiz definition
  patterns, `random.shuffle`, `random.randint`, and the sqlite-backed
  student profile) enter as explicit function parameters, so every theorem
  quantifies over their behaviour.
-/

set_option maxHeartbeats 1000000

/-! ## Character and string helpers (Python semantics, ASCII fragment) -/

/-- The space character, written by code point to keep literals simple. -/
def spaceC : Char := Char.ofNat 32

/-- The tab character. -/
def tabC : Char := Char.ofNat 9

/-- The newline character. -/
def nlC : Char := Char.ofNat 10

/-- Python `str.isspace` on the ASCII plane: space, tab, newline, carriage
return, vertical tab, form feed. -/
def pyIsSpace (c : Char) : Bool :=
  c == spaceC || c == tabC || c == nlC || c == Char.ofNat 13 ||
  c == Char.ofNat 11 || c == Char.ofNat 12

/-- Python `str.isprintable`: exact on the ASCII plane (0x20–0x7E printable,
controls not); code points above the C1 control block and NBSP are treated
as printable, matching Python for all characters used in this development. -/
def pyIsPrintable (c : Char) : Bool :=
  (decide (32 ≤ c.toNat) && decide (c.toNat ≤ 126)) || decide (161 ≤ c.toNat)

/-- Python `str.strip` on a character list. -/
def stripL (l : List Char) : List Char :=
  ((l.dropWhile pyIsSpace).reverse.dropWhile pyIsSpace).reverse

/-- Python `str.strip`. -/
def stripStr (s : String) : String := ⟨stripL s.data⟩

/-- Python `str.lower` (ASCII). -/
def lowerStr (s : String) : String := ⟨s.data.map Char.toLower⟩

/-- Substring containment on character lists (Python `pat in s`). -/
def subListOf (pat : List Char) : List Char → Bool
  | [] => pat.isEmpty
  | c :: t => pat.isPrefixOf (c :: t) || subListOf pat t

/-- Python substring containment `pat in s`. -/
def containsStr (pat s : String) : Bool := subListOf pat.data s.data

/-- Python `str.split()` (split on whitespace runs, dropping empty parts):
worker carrying the current word, reversed. -/
def pySplitGo : List Char → List Char → List (List Char)
  | [], acc => if acc.isEmpty then [] else [acc.reverse]
  | c :: t, acc =>
    if pyIsSpace c then
      if acc.isEmpty then pySplitGo t [] else acc.reverse :: pySplitGo t []
    else pySplitGo t (c :: acc)

/-- Python `str.split()`. -/
def pySplit (s : String) : List String := (pySplitGo s.data []).map String.mk

theorem dropWhile_length_le {α : Type} (p : α → Bool) :
    ∀ l : List α, (l.dropWhile p).length ≤ l.length := by
  intro l
  induction l with
  | nil => simp [List.dropWhile]
  | cons a t ih =>
    by_cases h : p a
    · simp [List.dropWhile, h]
      exact Nat.le_succ_of_le ih
    · simp [List.dropWhile, h]

/-- Worker for `collapseRuns`, carrying the pending run reversed in `acc`
(structural recursion, so concrete evaluation reduces in the kernel). -/
def collapseRunsGo (p : Char → Bool) (k : Nat) (r : List Char) :
    List Char → List Char → List Char
  | [], acc =>
    if acc.isEmpty then [] else if k ≤ acc.length then r else acc.reverse
  | c :: t, acc =>
    if p c then collapseRunsGo p k r t (c :: acc)
    else
      (if acc.isEmpty then [] else if k ≤ acc.length then r else acc.reverse) ++
        c :: collapseRunsGo p k r t []

/-- Replace every maximal run of characters satisfying `p` whose length is at
least `k` by the replacement `r`, leaving shorter runs untouched.  This is
the semantics of `re.sub` for the run patterns used by the source
(`[ \t]{2,}`, `\n{3,}`, `[-]{3,}`, `\.{3,}`): matches are leftmost and
greedy, hence exactly the maximal runs of length ≥ k. -/
def collapseRuns (p : Char → Bool) (k : Nat) (r : List Char) (l : List Char) :
    List Char :=
  collapseRunsGo p k r l []

/-- Regex word characters `\w` (`[A-Za-z0-9_]`). -/
def isWordChar (c : Char) : Bool := c.isAlphanum || c == Char.ofNat 95

/-- Whether the word `w` occurs in `s` at position `i` with `\b` boundaries
on both sides.  All words matched this way in the source start and end with
a letter, for which `\b` at the ends of the occurrence is exactly the
condition below. -/
def wordAt (w s : List Char) (i : Nat) : Bool :=
  decide ((s.drop i).take w.length = w) &&
  (decide (i = 0) || !isWordChar (s.getD (i - 1) spaceC)) &&
  (decide (s.length ≤ i + w.length) || !isWordChar (s.getD (i + w.length) spaceC))

/-- Whether `re.search` finds `\b<w>\b` anywhere in `s`. -/
def containsWordL (w s : List Char) : Bool :=
  (List.range (s.length + 1)).any (wordAt w s)

/-- Word-boundary containment on strings. -/
def containsWord (w s : String) : Bool := containsWordL w.data s.data

namespace Retriever

/-! ## Backend/retriever.py -/

/-- `_safe_text` from `Backend/retriever.py`: NFC-normalize (identity on the
ASCII data of this development), keep printable characters plus newline and
tab (the utf-8 encode/decode round trip is the identity on valid strings),
collapse runs of spaces/tabs of length ≥ 2 to one space, collapse runs of
≥ 3 newlines to two, and strip. -/
def _safe_text (s : String) : String :=
  let l := s.data.filter (fun c => pyIsPrintable c || c == nlC || c == tabC)
  let l := collapseRuns (fun c => c == spaceC || c == tabC) 2 [spaceC] l
  let l := collapseRuns (fun c => c == nlC) 3 [nlC, nlC] l
  String.mk (stripL l)

/-- The non-ASCII math symbols of `MATH_TOKENS`, by code point:
× ÷ ∫ Σ π √. -/
def timesS : String := String.mk [Char.ofNat 215]

/-- Division sign ÷. -/
def divS : String := String.mk [Char.ofNat 247]

/-- Integral sign ∫. -/
def integralS : String := String.mk [Char.ofNat 8747]

/-- Capital sigma Σ. -/
def sigmaS : String := String.mk [Char.ofNat 931]

/-- Greek letter π. -/
def piS : String := String.mk [Char.ofNat 960]

/-- Square root sign √. -/
def sqrtS : String := String.mk [Char.ofNat 8730]

/-- `MATH_TOKENS` from `Backend/retriever.py`.  The source stores them in a
Python set; only the count of contained tokens is used, so a list is an
order-faithful model. -/
def MATH_TOKENS : List String :=
  ["\\frac", "\\sum", "\\int", "=", "<", ">", timesS, divS, integralS,
   sigmaS, piS, sqrtS, "^", "_", "lim", "exp"]

/-- The punctuation characters treated as ordinary by the symbol-ratio
heuristic: `. , ; : - ( ) [ ] { } ' " /` (written by code point). -/
def basicPunct : List Char :=
  [46, 44, 59, 58, 45, 40, 41, 91, 93, 123, 125, 39, 34, 47].map Char.ofNat

/-- The `^\s*\d+[\.\)]` test of `is_math_block` (anchored `re.search`
without MULTILINE matches only at the start): optional leading whitespace,
at least one digit, then `.` or `)`.  Greedy `\d+` with backtracking
succeeds exactly when the character after the maximal digit run is `.` or
`)`. -/
def startsNumbered (l : List Char) : Bool :=
  let l := l.dropWhile pyIsSpace
  let ds := l.takeWhile Char.isDigit
  !ds.isEmpty && (match l.drop ds.length with
    | c :: _ => c == Char.ofNat 46 || c == Char.ofNat 41
    | [] => false)

/-- `is_math_block` from `Backend/retriever.py`: any one of three signals
suffices — a contained math token, a high symbol ratio co-occurring with a
non-trivial digit ratio, or a leading numbered-list pattern on the stripped
text. -/
def is_math_block (text : String) : Bool :=
  if text.data.isEmpty then false
  else
    let count_tokens := (MATH_TOKENS.filter (fun t => subListOf t.data text.data)).length
    let total_chars := max 1 text.data.length
    let non_alnum := (text.data.filter
      (fun ch => !(ch.isAlphanum || pyIsSpace ch || basicPunct.contains ch))).length
    let digits := (text.data.filter Char.isDigit).length
    if 1 ≤ count_tokens then true
    else if 100 * non_alnum > 28 * total_chars && 100 * digits > 5 * total_chars then true
    else startsNumbered (stripL text.data)

/-- `_clean_text` from `Backend/retriever.py`: `_safe_text`, then remove
runs of ≥ 3 dashes, collapse runs of ≥ 3 dots to one dot, and strip. -/
def _clean_text (t : String) : String :=
  if t.data.isEmpty then ""
  else
    let l := (_safe_text t).data
    let l := collapseRuns (fun c => c == Char.ofNat 45) 3 [] l
    let l := collapseRuns (fun c => c == Char.ofNat 46) 3 [Char.ofNat 46] l
    String.mk (stripL l)

/-- The exercise-instruction verbs rejected by `clean_chunk`, each matched
with `\b` boundaries. -/
def EXERCISE_WORDS : List String :=
  ["Find", "Calculate", "Determine", "Show that", "Prove"]

/-- The `^\d+\.` test of `clean_chunk` (`re.match`): at least one leading
digit with the character after the maximal digit run equal to `.`. -/
def startsNumberDot (l : List Char) : Bool :=
  let ds := l.takeWhile Char.isDigit
  !ds.isEmpty && ((l.drop ds.length).head? == some (Char.ofNat 46))

/-- `clean_chunk` from `Backend/retriever.py`: `None` for empty input, strip,
reject exercise headings and numbered problems, otherwise return the
stripped text unchanged. -/
def clean_chunk (text : String) : Option String :=
  if text.data.isEmpty then none
  else
    let text := stripStr text
    if EXERCISE_WORDS.any (fun w => containsWord w text) then none
    else if startsNumberDot text.data then none
    else some text

/-- An entry of the serialized chunk store `kb_chunks.npy`: either a bare
string or a record.  A record models a Python dict through the defaulted
reads `chunk.get("chapter", "unknown")`, `chunk.get("text", "")`,
`chunk.get("type", "text")`: a dict missing a key is represented by the
record holding that default. -/
inductive StoreEntry where
  | str (s : String)
  | dict (chapter text type : String)
deriving DecidableEq, Repr

/-- A chunk record as returned by `retrieve`. -/
structure Chunk where
  chapter : String
  text : String
  type : String
deriving DecidableEq, Repr

/-- The string-to-dict promotion at the top of the retrieval loop. -/
def normEntry : StoreEntry → Chunk
  | .str s => ⟨"unknown", s, "text"⟩
  | .dict ch t ty => ⟨ch, t, ty⟩

/-- The dedup key `(chapter, cleaned[:120])`. -/
def chunkKey (chapter cleaned : String) : String × String :=
  (chapter, ⟨cleaned.data.take 120⟩)

/-- The per-candidate body of the retrieval loop, before deduplication:
skip out-of-range indices, skip non-`text` chunks, skip math blocks (tested
on the raw text), clean, and skip cleaned text shorter than 20 characters
(`not cleaned` is subsumed: the empty string has length 0). -/
def survives (store : List StoreEntry) (i : Int) : Option Chunk :=
  if i < 0 ∨ (store.length : Int) ≤ i then none
  else
    let chunk := normEntry (store.getD i.toNat (.str ""))
    if chunk.type ≠ "text" then none
    else if is_math_block chunk.text then none
    else
      match clean_chunk (_clean_text chunk.text) with
      | none => none
      | some cleaned =>
        if cleaned.data.length < 20 then none
        else some ⟨chunk.chapter, cleaned, "text"⟩

/-- The filter pipeline applied to every candidate in similarity-rank
order, before deduplication. -/
def survivorsOf (store : List StoreEntry) (cands : List Int) : List Chunk :=
  cands.filterMap (survives store)

/-- The dedup key of a surviving chunk (its text is already cleaned). -/
def keyOf (c : Chunk) : String × String := chunkKey c.chapter c.text

/-- The retrieval loop of `retrieve`: per-candidate filtering (`survives`)
interleaved with the `seen`-set deduplication, emitting results in
first-seen rank order. -/
def retrieveGo (store : List StoreEntry) : List Int → List (String × String) → List Chunk
  | [], _ => []
  | i :: rest, seen =>
    match survives store i with
    | none => retrieveGo store rest seen
    | some c =>
      if keyOf c ∈ seen then retrieveGo store rest seen
      else c :: retrieveGo store rest (keyOf c :: seen)

/-- `retrieve` given the candidate index list produced by the FAISS search
(`I[0]` in the source). -/
def retrieveFrom (store : List StoreEntry) (cands : List Int) : List Chunk :=
  retrieveGo store cands []

/-- Generic keyed first-occurrence filter, stated independently of the
retrieval loop so that deduplication can be proved as a property. -/
def dedupGo : List Chunk → List (String × String) → List Chunk
  | [], _ => []
  | c :: rest, seen =>
    if keyOf c ∈ seen then dedupGo rest seen
    else c :: dedupGo rest (keyOf c :: seen)

/-- Keyed first-occurrence filter from the empty seen set. -/
def dedupFirst (l : List Chunk) : List Chunk := dedupGo l []

/-! ### Lazily loaded module state (for the idempotence property) -/

/-- The on-disk artifacts `kb_chunks.npy` and `kb_index.faiss`; `none`
models an absent file.  `Ix` is the abstract type of a loaded FAISS
index. -/
structure KBFiles (Ix : Type) where
  chunksFile : Option (List StoreEntry)
  indexFile : Option Ix

/-- The module-level globals `chunks` and `index` of
`Backend/retriever.py` (the sentence-transformer global has no observable
effect in this model: the embedding enters through the search
parameter). -/
structure KBState (Ix : Type) where
  chunks : Option (List StoreEntry)
  index : Option Ix

/-- `_load_kb`: load each artifact once, keeping it in the module state;
an absent file raises `FileNotFoundError`, and a partial load (chunks
loaded, index missing) keeps the successfully loaded part in the state as
in the source. -/
def _load_kb {Ix : Type} (fs : KBFiles Ix) (st : KBState Ix) :
    Except String (List StoreEntry × Ix) × KBState Ix :=
  let step1 : Except String (List StoreEntry) × KBState Ix :=
    match st.chunks with
    | some c => (.ok c, st)
    | none =>
      match fs.chunksFile with
      | some c => (.ok c, { st with chunks := some c })
      | none => (.error "kb_chunks.npy missing - run kb_builder.py first.", st)
  match step1 with
  | (.error e, st1) => (.error e, st1)
  | (.ok c, st1) =>
    match st1.index with
    | some ix => (.ok (c, ix), st1)
    | none =>
      match fs.indexFile with
      | some ix => (.ok (c, ix), { st1 with index := some ix })
      | none => (.error "kb_index.faiss missing - run kb_builder.py first.", st1)

/-- `retrieve` as a state transformer over the module globals.  `search`
models `model.encode` followed by `idx.search`, returning the candidate
index row `I[0]`; it is a function, hence deterministic, as the
specification assumes of the embedding. -/
def retrieve_stateful {Ix : Type} (search : Ix → String → Nat → List Int)
    (fs : KBFiles Ix) (query : String) (top_k : Nat) (st : KBState Ix) :
    Except String (List Chunk) × KBState Ix :=
  match _load_kb fs st with
  | (.error e, st1) => (.error e, st1)
  | (.ok (c, ix), st1) => (.ok (retrieveFrom c (search ix query top_k)), st1)

end Retriever

namespace Quiz

/-! ## Backend/quiz_generator.py -/

open Retriever

/-- `BASE_DISTRACTORS` from `Backend/quiz_generator.py`. -/
def BASE_DISTRACTORS : List String :=
  ["Limit", "Derivative", "Integral", "Matrix", "Determinant",
   "Probability", "Permutation", "Combination", "Vector",
   "Scalar", "Continuity", "Differentiability", "Gradient", "Rank"]

/-- The six private-use glyph characters removed by the quiz generator's
`clean_text` (its first `re.sub` is a character class of PDF artifact
glyphs U+F8EE, U+F8F9, U+F8EF, U+F8FA, U+F8F0, U+F8FB). -/
def GLYPHS : List Char :=
  [63726, 63737, 63727, 63738, 63728, 63739].map Char.ofNat

/-- Whether `\bFig\b` matches at the head of `l`, where `prev` is the
character immediately before `l` in the scanned text (`none` at the start):
the left boundary needs a non-word `prev`, the right boundary a non-word
(or absent) character after `Fig`. -/
def matchFigAt (prev : Option Char) (l : List Char) : Bool :=
  (match prev with | none => true | some p => !isWordChar p) &&
  decide (l.take 3 = ['F', 'i', 'g']) &&
  (match l.drop 3 with | [] => true | c :: _ => !isWordChar c)

/-- Worker for the `\bFig\b.*` removal: `skipping = true` while inside a
deleted match (deletion runs to the end of the line, `.` not crossing
newlines); `prev` is the previous character of the scan, for the left
word boundary. -/
def removeFigGo : Bool → Option Char → List Char → List Char
  | _, _, [] => []
  | true, prev, c :: t =>
    if c == nlC then c :: removeFigGo false (some c) t
    else removeFigGo true prev t
  | false, prev, c :: t =>
    if matchFigAt prev (c :: t) then removeFigGo true prev t
    else c :: removeFigGo false (some c) t

/-- The `\bFig\b.*` removal of the quiz generator's `clean_text`: `re.sub`
deletes, for every word-boundary occurrence of `Fig`, the text from that
occurrence to the end of its line. -/
def removeFig (l : List Char) : List Char := removeFigGo false none l

/-- `clean_text` from `Backend/quiz_generator.py`: remove artifact glyphs,
remove `Fig…` line tails, collapse whitespace runs of length ≥ 2 to one
space, and strip. -/
def clean_text (t : String) : String :=
  if t.data.isEmpty then ""
  else
    let l := t.data.filter (fun c => !GLYPHS.contains c)
    let l := removeFig l
    let l := collapseRuns pyIsSpace 2 [spaceC] l
    String.mk (stripL l)

/-- The interrogative words rejected by `is_bad_concept` (substring test). -/
def BAD_WORDS : List String :=
  ["what", "which", "this", "that", "how", "why", "where", "when"]

/-- `is_bad_concept` from `Backend/quiz_generator.py`: lowercase and strip,
then reject concepts shorter than 3 characters, containing an interrogative
word, containing a digit, or spanning more than 5 words. -/
def is_bad_concept (c : String) : Bool :=
  let c := stripStr (lowerStr c)
  if c.data.length < 3 then true
  else if BAD_WORDS.any (fun w => containsStr w c) then true
  else if c.data.any Char.isDigit then true
  else if 5 < (pySplit c).length then true
  else false

/-- `generate_distractors_for` from `Backend/quiz_generator.py`: the bank
entries whose lowercase differs from the concept's, shuffled (`shuf`), the
first three kept, padded with `Option NN` labels if fewer than three remain
(`padf` models the successive `random.randint(10, 99)` draws).  The
`correct` parameter is accepted and unused, as in the source. -/
def generate_distractors_for (shuf : List String → List String)
    (padf : Nat → Nat) (concept correct : String) : List String :=
  let picks := BASE_DISTRACTORS.filter (fun d => !(lowerStr d == lowerStr concept))
  let picks := shuf picks
  let distractors := picks.take 3
  distractors ++ (List.range (3 - distractors.length)).map
    (fun j => "Option " ++ toString (padf j))

/-- An MCQ record: `answer` is the single letter `chr(index + 65)`. -/
structure MCQ where
  chapter : String
  question : String
  options : List String
  answer : Char
  explanation : String
deriving DecidableEq, Repr

/-- The MCQ assembly shared verbatim by both branches of `sentence_to_mcq`
(the first branch writes `concept.strip()` in the question, but `concept`
is already stripped there, and stripping is idempotent): three distractors
plus the correct definition, all four shuffled, the answer letter recording
the first index of the correct option. -/
def buildMCQ (shufD shufO : List String → List String) (padf : Nat → Nat)
    (chapter concept definition : String) : MCQ :=
  let correct := definition
  let distractors := generate_distractors_for shufD padf concept correct
  let options := shufO (distractors ++ [correct])
  { chapter := chapter
    question := "What is " ++ concept ++ "?"
    options := options
    answer := Char.ofNat (options.indexOf correct + 65)
    explanation := definition }

/-- The abstract regular-expression engine for the quiz generator's
definition patterns.  `defPat i s` returns groups 1 and 2 of
`DEF_PATTERNS[i].search(s)` (every pattern has at least two groups, so
`m.lastindex >= 2` always holds in the source); `simplePat s` returns the
groups of `DEF_RE_SIMPLE.search(s)`.  Theorems quantify over this engine,
and the claims settled here do not depend on the shape of a successful
match. -/
structure RegexEngine where
  defPat : Nat → String → Option (String × String)
  simplePat : String → Option (String × String)

/-- Randomness and regex parameters of the quiz generator: `shuf k` is the
`k`-th `random.shuffle` draw (as the permutation it applies), `pad k j` the
`j`-th `random.randint(10, 99)` draw of MCQ number `k`. -/
structure QuizOracle where
  shuf : Nat → List String → List String
  pad : Nat → Nat → Nat
  eng : RegexEngine

/-- One pattern attempt of `sentence_to_mcq`: a match whose stripped
groups pass `is_bad_concept` and the 12-character definition test yields
the (concept, definition) pair, otherwise the loop continues. -/
def tryPat (eng : RegexEngine) (i : Nat) (sentence : String) :
    Option (String × String) :=
  match eng.defPat i sentence with
  | none => none
  | some (g1, g2) =>
    let concept := stripStr g1
    let definition := stripStr g2
    if !is_bad_concept concept && 12 < definition.data.length then
      some (concept, definition)
    else none

/-- The simple-pattern fallback attempt of `sentence_to_mcq`, with the same
checks. -/
def trySimple (eng : RegexEngine) (sentence : String) :
    Option (String × String) :=
  match eng.simplePat sentence with
  | none => none
  | some (g1, g2) =>
    let concept := stripStr g1
    let definition := stripStr g2
    if !is_bad_concept concept && 12 < definition.data.length then
      some (concept, definition)
    else none

/-- `sentence_to_mcq` from `Backend/quiz_generator.py`: the four definition
patterns in order (a pattern that matches but fails the checks falls
through to the next), then the simple `X is Y` fallback.  `k` is the index
of the MCQ being built, fixing which shuffle draws it consumes. -/
def sentence_to_mcq (O : QuizOracle) (k : Nat) (sentence chapter : String) :
    Option MCQ :=
  match tryPat O.eng 0 sentence <|> tryPat O.eng 1 sentence <|>
        tryPat O.eng 2 sentence <|> tryPat O.eng 3 sentence <|>
        trySimple O.eng sentence with
  | some (c, d) => some (buildMCQ (O.shuf (2 * k)) (O.shuf (2 * k + 1)) (O.pad k) chapter c d)
  | none => none

/-- `fallback_mcq` from `Backend/quiz_generator.py`: pseudo-concept from the
first three whitespace words of the topic (or `the topic`), templated
correct statement, bank-drawn distractors. -/
def fallback_mcq (shufD shufO : List String → List String) (padf : Nat → Nat)
    (topic chapter : String) : MCQ :=
  let concept0 := stripStr (String.intercalate " " ((pySplit topic).take 3))
  let concept := if concept0 = "" then "the topic" else concept0
  let correct := "A brief description of " ++ concept ++ "."
  let distractors := generate_distractors_for shufD padf concept correct
  let options := shufO (distractors ++ [correct])
  { chapter := chapter
    question := "Which of the following best describes " ++ concept ++ "?"
    options := options
    answer := Char.ofNat (options.indexOf correct + 65)
    explanation := correct }

/-- Sentence splitting `re.split(r"(?<=[.!?])\s+", text)`: the separators
are the maximal whitespace runs whose preceding character is `.`, `!` or
`?`.  The worker carries the current segment reversed in `acc`; `sep` is
true while consuming a separator run (with `acc` already flushed). -/
def splitSentsGo : Bool → List Char → List Char → List (List Char)
  | _, [], acc => [acc.reverse]
  | true, c :: t, acc =>
    if pyIsSpace c then splitSentsGo true t acc
    else splitSentsGo false t (c :: acc)
  | false, c :: t, acc =>
    if pyIsSpace c && (match acc with
        | p :: _ => p == Char.ofNat 46 || p == Char.ofNat 33 || p == Char.ofNat 63
        | [] => false) then
      acc.reverse :: splitSentsGo true t []
    else splitSentsGo false t (c :: acc)

/-- Terminal-punctuation sentence splitting on strings. -/
def splitSents (s : String) : List String :=
  (splitSentsGo false s.data []).map String.mk

/-- `extract_candidate_sentences` from `Backend/quiz_generator.py`: split on
terminal punctuation, clean each sentence, keep lengths strictly between 20
and 300. -/
def extract_candidate_sentences (text : String) : List String :=
  ((splitSents text).map clean_text).filter
    (fun s2 => 20 < s2.data.length && s2.data.length < 300)

/-- The sentinel placeholder returned when retrieval yields nothing. -/
def sentinelMCQ (topic : String) : MCQ :=
  { chapter := ""
    question := "No clear MCQs found for \x27" ++ topic ++ "\x27."
    options := ["-", "-", "-", "-"]
    answer := 'A'
    explanation := "No definitional or formula-based content detected." }

/-- The inner sentence loop of `generate_quiz_for_topic`: append the MCQ of
each productive sentence, and return early (`Sum.inr`) as soon as
`n ≤ len(mcqs)` — the length test runs after every sentence, matching the
source, where it sits outside the `if mcq:` guard.  The shuffle-draw index
of an MCQ is twice the number of MCQs already collected. -/
def sentLoop (O : QuizOracle) (n : Nat) (chapter : String) :
    List String → List MCQ → List MCQ ⊕ List MCQ
  | [], mcqs => .inl mcqs
  | s :: rest, mcqs =>
    let mcqs' := match sentence_to_mcq O mcqs.length s chapter with
      | some m => mcqs ++ [m]
      | none => mcqs
    if n ≤ mcqs'.length then .inr mcqs'
    else sentLoop O n chapter rest mcqs'

/-- The outer chunk loop of `generate_quiz_for_topic`. -/
def chunkLoop (O : QuizOracle) (n : Nat) :
    List Chunk → List MCQ → List MCQ ⊕ List MCQ
  | [], mcqs => .inl mcqs
  | ch :: rest, mcqs =>
    let text := clean_text ch.text
    let sents := extract_candidate_sentences text
    match sentLoop O n ch.chapter sents mcqs with
    | .inr r => .inr r
    | .inl m' => chunkLoop O n rest m'

/-- Worker for `alphaWords`, carrying the current alphabetic run reversed. -/
def alphaWordsGo : List Char → List Char → List (List Char)
  | [], acc => if 3 ≤ acc.length then [acc.reverse] else []
  | c :: t, acc =>
    if c.isAlpha then alphaWordsGo t (c :: acc)
    else (if 3 ≤ acc.length then [acc.reverse] else []) ++ alphaWordsGo t []

/-- The maximal alphabetic runs of length ≥ 3 (`re.findall(r"[A-Za-z]{3,}",
topic)`): the regex is greedy, so each match is a maximal run. -/
def alphaWords (l : List Char) : List (List Char) := alphaWordsGo l []

/-- `generate_quiz_for_topic` from `Backend/quiz_generator.py`, with the
retrieval inputs explicit: `store` and `cands` are the chunk store and the
FAISS candidate row for the `retrieve(topic, top_k=20)` call.  After the
scan, an empty harvest with a non-empty retrieval produces `n` generic
fallback MCQs from the first chunk; an empty harvest with empty retrieval
produces the single sentinel; otherwise the harvest is truncated to `n`. -/
def generate_quiz_for_topic (O : QuizOracle) (store : List StoreEntry)
    (cands : List Int) (topic : String) (n : Nat) : List MCQ :=
  let chunks := retrieveFrom store cands
  match chunkLoop O n chunks [] with
  | .inr r => r
  | .inl mcqs =>
    match chunks, mcqs with
    | ch0 :: _, [] =>
      let words := alphaWords topic.data
      let guess := if words.isEmpty then topic
        else String.intercalate " " ((words.take 3).map String.mk)
      let arg := if guess = "" then topic else guess
      (List.range n).map (fun j =>
        fallback_mcq (O.shuf (2 * j)) (O.shuf (2 * j + 1)) (O.pad j) arg ch0.chapter)
    | _, _ => if mcqs.isEmpty then [sentinelMCQ topic] else mcqs.take n

end Quiz

namespace ProgressDB

/-! ## Backend/progress_db.py (profile lookup) -/

/-- `topic_strength` from `Backend/progress_db.py`, modelling its final
lookup `prof.get(topic, {}).get("strength", "medium")`: `prof` maps a
student and topic to the strength classification of the aggregated attempt
history when the topic has attempts, and to `none` when it is absent, in
which case the lookup defaults to `medium`. -/
def topic_strength (prof : String → String → Option String)
    (student_id topic : String) : String :=
  (prof student_id topic).getD "medium"

end ProgressDB

namespace BPlanner

/-! ## Backend/planner.py -/

/-- The resulting plan dictionary. -/
structure Plan where
  action : String
  topic : String
  difficulty : String
deriving DecidableEq, Repr

/-- `VALID_TOPICS` from `Backend/planner.py`, in source order.  The source
stores them in a Python set, whose iteration order is unspecified;
`_match_best_topic` takes the order as a parameter, and the theorems below
quantify over permutations wherever the matched topic matters. -/
def VALID_TOPICS : List String :=
  ["relations and functions", "inverse trigonometric function", "matrices",
   "determinants", "continuity and differentiability",
   "application of derivatives", "integrals", "application of integrals",
   "differential equations", "vector algebra",
   "three dimensional geometry", "linear programming", "probability"]

/-- `_normalize_topic` from `Backend/planner.py`. -/
def _normalize_topic (t : String) : String :=
  if t = "" then "" else lowerStr (stripStr t)

/-- `_match_best_topic` from `Backend/planner.py`: first topic of the
iteration order that is a substring of the lowercased text, else empty. -/
def _match_best_topic (topics : List String) (text : String) : String :=
  let text := lowerStr text
  match topics.find? (fun t => containsStr t text) with
  | some t => t
  | none => ""

/-- The quiz-intent keywords of `Backend/planner.py` (note: no `solve`). -/
def quiz_intent_keywords : List String :=
  ["quiz", "practice", "test", "exercise", "questions", "mcq"]

/-- The explanation-intent keywords of `Backend/planner.py`. -/
def explain_keywords : List String :=
  ["explain", "understand", "stuck", "help", "why", "how", "define"]

/-- Python truthiness chain `a or b` on strings. -/
def pyOr (a b : String) : String := if a = "" then b else a

/-- Step 1 of `planner_decide` (topic resolution): explicit topic, else
best match, else the raw lowercased query, normalized.  `q` is the already
stripped and lowercased query. -/
def chosen_topic_of (topics : List String) (topicArg : Option String)
    (q : String) : String :=
  let chosen0 := pyOr (pyOr (topicArg.getD "") (_match_best_topic topics q)) ""
  let chosen1 := if chosen0 = "" then q else chosen0
  _normalize_topic chosen1

/-- Step 2 of `planner_decide` (action detection), with the explain-keyword
branch kept although both non-quiz branches produce the same action. -/
def action_of (q : String) : String :=
  if quiz_intent_keywords.any (fun k => containsStr k q) then "generate_quiz"
  else if explain_keywords.any (fun k => containsStr k q) then "retrieve_and_explain"
  else "retrieve_and_explain"

/-- Step 3a of `planner_decide`: strength-to-difficulty mapping. -/
def base_difficulty (strength : String) : String :=
  if strength = "weak" then "easy"
  else if strength = "strong" then "hard"
  else "medium"

/-- Step 3b of `planner_decide`: literal query overrides, substring based,
easy-check first and hard-check second. -/
def override_difficulty (q d : String) : String :=
  let d := if containsStr "easy" q then "easy" else d
  if containsStr "hard" q || containsStr "difficult" q then "hard" else d

/-- `planner_decide` from `Backend/planner.py`.  `ts` models
`progress_db.topic_strength`; it may raise (the `Except` error case), and
this planner does not catch, so the failure propagates. -/
def planner_decide {ε : Type} (ts : String → String → Except ε String)
    (topics : List String) (student_id query : String)
    (topicArg : Option String) : Except ε Plan :=
  let q := lowerStr (stripStr query)
  let chosen_topic := chosen_topic_of topics topicArg q
  let action := action_of q
  (if student_id ≠ "" then ts student_id chosen_topic
    else Except.ok "medium").bind fun strength =>
  Except.ok { action := action, topic := chosen_topic,
              difficulty := override_difficulty q (base_difficulty strength) }

end BPlanner

namespace APlanner

/-! ## Backend/agents/planner.py -/

/-- The resulting plan dictionary of the agents planner, which also carries
the `quiz_suggestion` flag. -/
structure Plan where
  action : String
  topic : String
  difficulty : String
  quiz_suggestion : Bool
deriving DecidableEq, Repr

/-- `VALID_TOPICS` from `Backend/agents/planner.py` (a list in the source,
iterated in this order). -/
def VALID_TOPICS : List String :=
  ["relations and functions", "inverse trigonometric function", "matrices",
   "determinants", "continuity and differentiability",
   "application of derivatives", "integrals", "application of integrals",
   "differential equations", "vector algebra",
   "three dimensional geometry", "linear programming", "probability"]

/-- `_normalize_topic` from `Backend/agents/planner.py`. -/
def _normalize_topic (t : String) : String :=
  if t = "" then "" else lowerStr (stripStr t)

/-- `_match_best_topic` from `Backend/agents/planner.py`: ordered substring
matching against `VALID_TOPICS`, then the `matrix`/`matrices` and
`probability` stem fallbacks. -/
def _match_best_topic (text : String) : String :=
  if text = "" then ""
  else
    let s := lowerStr text
    match VALID_TOPICS.find? (fun t => containsStr t s) with
    | some t => t
    | none =>
      if containsStr "matrix" s || containsStr "matrices" s then "matrices"
      else if containsStr "probability" s || containsStr "conditional probability" s then
        "probability"
      else ""

/-- The quiz-intent keywords of `Backend/agents/planner.py` (a set in the
source; `any` is order-independent).  This list includes `solve`. -/
def quiz_keywords : List String :=
  ["quiz", "practice", "test", "exercise", "questions", "mcq", "solve"]

/-- The explanation-intent keywords of `Backend/agents/planner.py`. -/
def explain_keywords : List String :=
  ["explain", "understand", "stuck", "help", "why", "how", "define", "what is"]

/-- Python truthiness chain `a or b` on strings. -/
def pyOr (a b : String) : String := if a = "" then b else a

/-- Topic resolution of the agents `planner_decide`: explicit topic, else
best match of the stripped query, the chain normalized (falling back to the
query itself). -/
def chosen_topic_of (topicArg : Option String) (q : String) : String :=
  let chosen0 := pyOr (topicArg.getD "") (_match_best_topic q)
  _normalize_topic (pyOr chosen0 q)

/-- Action detection of the agents `planner_decide` (`lower` is the
lowercased stripped query); the explain branch is kept although both
non-quiz branches produce the same action. -/
def action_of (lower : String) : String :=
  if quiz_keywords.any (fun k => containsStr k lower) then "generate_quiz"
  else if explain_keywords.any (fun k => containsStr k lower) then "retrieve_and_explain"
  else "retrieve_and_explain"

/-- The guarded history read of the agents `planner_decide`: `diff` stays
`medium` unless the student id is non-empty and `topic_strength` imported,
and any failure of the lookup is caught, keeping `medium`. -/
def history_difficulty {ε : Type} (ts : String → String → Except ε String)
    (avail : Bool) (student_id chosen_topic : String) : String :=
  if student_id ≠ "" && avail then
    match ts student_id chosen_topic with
    | .ok strength =>
      if strength = "weak" then "easy"
      else if strength = "strong" then "hard"
      else "medium"
    | .error _ => "medium"
  else "medium"

/-- The literal overrides of the agents `planner_decide`, word-boundary
based (`\beasy\b`, `\bhard\b|\bdifficult\b`), easy-check first. -/
def override_difficulty (lower d : String) : String :=
  let d := if containsWord "easy" lower then "easy" else d
  if containsWord "hard" lower || containsWord "difficult" lower then "hard"
  else d

/-- `planner_decide` from `Backend/agents/planner.py`.  `avail` models
whether the module-level `topic_strength` import succeeded (`topic_strength`
is not `None`); `ts` may raise, and the surrounding `try` turns any failure
into keeping the default `medium`. -/
def planner_decide {ε : Type} (ts : String → String → Except ε String)
    (avail : Bool) (student_id query : String) (topicArg : Option String) :
    Plan :=
  let q := stripStr query
  let chosen_topic := chosen_topic_of topicArg q
  let lower := lowerStr q
  let action := action_of lower
  let diff := override_difficulty lower
    (history_difficulty ts avail student_id chosen_topic)
  { action := action, topic := chosen_topic, difficulty := diff,
    quiz_suggestion := action = "retrieve_and_explain" }

end APlanner

namespace Explainer

/-! ## Backend/agents/retrieval_agent.py and Backend/agents/explainer.py -/

open Retriever

/-- `_safe_normalize` from `Backend/agents/retrieval_agent.py`:
NFC-normalize (identity here) and strip. -/
def _safe_normalize (t : String) : String :=
  if t.data.isEmpty then "" else stripStr t

/-- `retrieve_text` from `Backend/agents/retrieval_agent.py` on the
successful import path: the core retrieval, each chunk reduced to its
normalized text and chapter. -/
def retrieve_text (store : List StoreEntry) (cands : List Int) :
    List (String × String) :=
  (retrieveFrom store cands).map (fun c => (c.chapter, _safe_normalize c.text))

/-- The explainer's result dictionary. -/
structure ExplainResult where
  topic : String
  explanation : String
  chapter : Option String
  sources : List String
deriving DecidableEq, Repr

/-- The part/source accumulation loop of `explain` over the first `top_k`
chunks: texts are stripped, empty texts skipped, truthy (non-empty)
chapters collected in order with duplicates. -/
def partsAndSources : List (String × String) → List String × List String
  | [] => ([], [])
  | (chapter, text) :: rest =>
    let (ps, ss) := partsAndSources rest
    let t := stripStr text
    if t = "" then (ps, ss)
    else (t :: ps, if chapter ≠ "" then chapter :: ss else ss)

/-- Python `s[:max_chars].rsplit(" ", 1)[0]`: everything before the last
space character, or the whole string when it contains no space. -/
def rsplitFirst (s : String) : String :=
  if spaceC ∈ s.data then
    String.mk (((s.data.reverse.dropWhile (fun c => !(c == spaceC))).drop 1).reverse)
  else s

/-- The blank-line join of the explanation parts. -/
def joinedOf (chunks : List (String × String)) (top_k : Nat) : String :=
  String.intercalate "\n\n" (partsAndSources (chunks.take top_k)).1

/-- `explain` from `Backend/agents/explainer.py`: empty retrieval yields the
fixed sentinel; otherwise the stripped texts of the first `top_k` chunks
are joined with blank lines and truncated at the last space of the
`max_chars`-character prefix with an ellipsis marker when over length. -/
def explain (store : List StoreEntry) (cands : List Int) (topic : String)
    (top_k max_chars : Nat) : ExplainResult :=
  let chunks := retrieve_text store cands
  if chunks.isEmpty then
    { topic := topic, explanation := "No explanation found.",
      chapter := none, sources := [] }
  else
    let ps := partsAndSources (chunks.take top_k)
    let explanation := String.intercalate "\n\n" ps.1
    let explanation :=
      if max_chars < explanation.data.length then
        rsplitFirst (String.mk (explanation.data.take max_chars)) ++ "..."
      else explanation
    { topic := topic, explanation := explanation,
      chapter := ps.2.head?, sources := ps.2 }

end Explainer

/-! ## Concrete inputs shared by witnesses and counterexamples -/

/-- A single prose chunk that survives every retrieval filter. -/
def probStore : List Retriever.StoreEntry :=
  [.dict "ch1" "Probability is a measure of chance." "text"]

/-- A chunk whose raw text passes `is_math_block` but whose cleaned text
contains the token `exp` (the dash run between `e` and `xp` is removed by
`_clean_text`). -/
def expStore : List Retriever.StoreEntry :=
  [.dict "ch1" "Some sentence here e-----xp more words here." "text"]

/-- A prose chunk containing the word `example`. -/
def exampleStore : List Retriever.StoreEntry :=
  [.dict "ch1" "He worked through one example here." "text"]

/-- A chunk that is a single 45-character word. -/
def longWordStore : List Retriever.StoreEntry :=
  [.dict "ch1" "Pneumonoultramicroscopicsilicovolcanoconiosis" "text"]

/-- Two candidates sharing the dedup key. -/
def dupStore : List Retriever.StoreEntry :=
  [.dict "ch1" "Probability is a measure of chance." "text",
   .dict "ch1" "Probability is a measure of chance." "text"]

/-- A concrete quiz oracle: identity shuffles, constant pad draws, a regex
engine that never matches. -/
def O0 : Quiz.QuizOracle :=
  { shuf := fun _ l => l
    pad := fun _ _ => 10
    eng := { defPat := fun _ _ => none, simplePat := fun _ => none } }

namespace Retriever

/-! ## Retrieval support lemmas -/

theorem survives_props {store : List StoreEntry} {i : Int} {c : Chunk}
    (h : survives store i = some c) :
    20 ≤ c.text.data.length ∧ c.type = "text" ∧
    ∃ raw : String, is_math_block raw = false ∧
      clean_chunk (_clean_text raw) = some c.text := by
  simp only [survives] at h
  split at h
  · exact absurd h (by simp)
  · split at h
    · exact absurd h (by simp)
    · split at h
      · exact absurd h (by simp)
      · rename_i hmath
        split at h
        · exact absurd h (by simp)
        · rename_i cleaned hclean
          split at h
          · exact absurd h (by simp)
          · rename_i hlen
            obtain rfl : _ = c := Option.some_injective _ h
            refine ⟨Nat.le_of_not_lt hlen, rfl, _, ?_, hclean⟩
            simpa using hmath

theorem mem_retrieveGo {store : List StoreEntry} :
    ∀ {cands : List Int} {seen : List (String × String)} {c : Chunk},
      c ∈ retrieveGo store cands seen → ∃ i : Int, survives store i = some c := by
  intro cands
  induction cands with
  | nil => intro seen c h; simp [retrieveGo] at h
  | cons i rest ih =>
    intro seen c h
    cases hs : survives store i with
    | none => simp only [retrieveGo, hs] at h; exact ih h
    | some c' =>
      simp only [retrieveGo, hs] at h
      by_cases hk : keyOf c' ∈ seen
      · rw [if_pos hk] at h; exact ih h
      · rw [if_neg hk] at h
        rcases List.mem_cons.mp h with rfl | h
        · exact ⟨i, hs⟩
        · exact ih h

theorem retrieveGo_eq_dedupGo (store : List StoreEntry) :
    ∀ (cands : List Int) (seen : List (String × String)),
      retrieveGo store cands seen = dedupGo (survivorsOf store cands) seen := by
  intro cands
  induction cands with
  | nil => intro seen; rfl
  | cons i rest ih =>
    intro seen
    unfold retrieveGo survivorsOf
    rw [List.filterMap_cons]
    cases hs : survives store i with
    | none => simpa [survivorsOf] using ih seen
    | some c =>
      simp only [dedupGo]
      by_cases hk : keyOf c ∈ seen
      · simpa [hk, survivorsOf] using ih seen
      · simpa [hk, survivorsOf] using ih (keyOf c :: seen)

theorem dedupGo_sublist : ∀ (l : List Chunk) (seen : List (String × String)),
    List.Sublist (dedupGo l seen) l := by
  intro l
  induction l with
  | nil => intro seen; simp [dedupGo]
  | cons c rest ih =>
    intro seen
    unfold dedupGo
    by_cases h : keyOf c ∈ seen
    · rw [if_pos h]; exact (ih seen).cons c
    · rw [if_neg h]; exact (ih _).cons₂ c

theorem dedupGo_keys : ∀ (l : List Chunk) (seen : List (String × String)),
    (∀ x ∈ dedupGo l seen, keyOf x ∉ seen) ∧
    ((dedupGo l seen).map keyOf).Nodup := by
  intro l
  induction l with
  | nil => intro seen; simp [dedupGo]
  | cons c rest ih =>
    intro seen
    unfold dedupGo
    by_cases h : keyOf c ∈ seen
    · rw [if_pos h]; exact ih seen
    · rw [if_neg h]
      obtain ⟨ihdisj, ihnodup⟩ := ih (keyOf c :: seen)
      constructor
      · intro x hx
        rcases List.mem_cons.mp hx with rfl | hx
        · exact h
        · intro hmem
          exact ihdisj x hx (List.mem_cons_of_mem _ hmem)
      · rw [List.map_cons, List.nodup_cons]
        constructor
        · intro hmem
          obtain ⟨y, hy, hky⟩ := List.mem_map.mp hmem
          exact ihdisj y hy (by rw [hky]; exact List.mem_cons_self _ _)
        · exact ihnodup

theorem dedupGo_covers : ∀ (l : List Chunk) (seen : List (String × String))
    (x : Chunk), x ∈ l →
    keyOf x ∈ seen ∨ ∃ y ∈ dedupGo l seen, keyOf y = keyOf x := by
  intro l
  induction l with
  | nil => intro seen x hx; simp at hx
  | cons c rest ih =>
    intro seen x hx
    unfold dedupGo
    by_cases h : keyOf c ∈ seen
    · rw [if_pos h]
      rcases List.mem_cons.mp hx with rfl | hx
      · exact Or.inl h
      · exact ih seen x hx
    · rw [if_neg h]
      rcases List.mem_cons.mp hx with heq | hx
      · exact Or.inr ⟨c, List.mem_cons_self _ _, (congrArg keyOf heq).symm⟩
      · rcases ih (keyOf c :: seen) x hx with hmem | ⟨y, hy, hky⟩
        · rcases List.mem_cons.mp hmem with heq | hmem
          · exact Or.inr ⟨c, List.mem_cons_self _ _, heq.symm⟩
          · exact Or.inl hmem
        · exact Or.inr ⟨y, List.mem_cons_of_mem _ hy, hky⟩

theorem survives_none_of_math (store : List StoreEntry) (i : Int)
    (h : is_math_block (normEntry (store.getD i.toNat (.str ""))).text = true) :
    survives store i = none := by
  simp only [survives]
  split
  · rfl
  · split
    · rfl
    · rfl

theorem retrieveGo_drop_none (store : List StoreEntry) (i : Int)
    (h : survives store i = none) :
    ∀ (cands : List Int) (seen : List (String × String)),
      retrieveGo store cands seen =
        retrieveGo store (cands.filter (fun j => j != i)) seen := by
  intro cands
  induction cands with
  | nil => intro seen; rfl
  | cons j rest ih =>
    intro seen
    by_cases hj : j = i
    · subst hj
      rw [List.filter_cons]
      simp only [bne_self_eq_false, Bool.false_eq_true, if_false]
      simp only [retrieveGo, h]
      exact ih seen
    · have hne : (j != i) = true := by simpa using hj
      rw [List.filter_cons]
      simp only [hne, if_true]
      cases hs : survives store j with
      | none => simp only [retrieveGo, hs]; exact ih seen
      | some c =>
        simp only [retrieveGo, hs]
        by_cases hk : keyOf c ∈ seen
        · rw [if_pos hk, if_pos hk]; exact ih seen
        · rw [if_neg hk, if_neg hk, ih (keyOf c :: seen)]

end Retriever

/-! ## Claim C3 -/

/-- C3 (counterexample): the claim asserts that `is_math_block` evaluates
false on the text of every returned chunk, but the filter runs on the raw
text before cleaning, and cleaning can create a math token: in
`"Some sentence here e-----xp more words here."` the dash run is removed by
`_clean_text`, so the returned text contains `exp` and `is_math_block` on
it evaluates true. -/
theorem C3_cleaning_creates_token_counterexample :
    ∃ c ∈ Retriever.retrieveFrom expStore [0],
      Retriever.is_math_block c.text = true := by decide

/-- C3 (amended): every chunk returned by `retrieve` has cleaned text of
length ≥ 20 and type `"text"`, and derives from a raw text on which
`is_math_block` evaluated false (the filter runs before cleaning; the
returned cleaned text itself may satisfy `is_math_block`). -/
theorem C3_retrieval_filter_amended (store : List Retriever.StoreEntry)
    (cands : List Int) (c : Retriever.Chunk)
    (hc : c ∈ Retriever.retrieveFrom store cands) :
    20 ≤ c.text.data.length ∧ c.type = "text" ∧
    ∃ raw : String, Retriever.is_math_block raw = false ∧
      Retriever.clean_chunk (Retriever._clean_text raw) = some c.text := by
  obtain ⟨i, hi⟩ := Retriever.mem_retrieveGo hc
  exact Retriever.survives_props hi

/-- C3 witness: the amended theorem applied to a concrete retrieval. -/
theorem C3_witness :
    20 ≤ ("Probability is a measure of chance." : String).data.length ∧
    ("text" : String) = "text" ∧
    ∃ raw : String, Retriever.is_math_block raw = false ∧
      Retriever.clean_chunk (Retriever._clean_text raw) =
        some "Probability is a measure of chance." := by
  have h := C3_retrieval_filter_amended probStore [0]
    ⟨"ch1", "Probability is a measure of chance.", "text"⟩ (by decide)
  exact ⟨h.1, rfl, h.2.2⟩

/-! ## Claim C4 -/

/-- C4 (confirmed): when the candidate row has length at most `top_k` (the
FAISS contract for `index.search(·, top_k)`), the retrieval result has
length at most `top_k`; no two result chunks share the `(chapter,
first-120-characters)` key; the result is a subsequence of the
rank-ordered filter survivors; it equals the keyed first-occurrence filter
of the survivors (first occurrence of each key kept in first-seen order,
later occurrences dropped); and every survivor's key is represented. -/
theorem C4_dedup_confirmed (store : List Retriever.StoreEntry)
    (cands : List Int) (top_k : Nat) (h : cands.length ≤ top_k) :
    (Retriever.retrieveFrom store cands).length ≤ top_k ∧
    ((Retriever.retrieveFrom store cands).map Retriever.keyOf).Nodup ∧
    List.Sublist (Retriever.retrieveFrom store cands)
      (Retriever.survivorsOf store cands) ∧
    Retriever.retrieveFrom store cands =
      Retriever.dedupFirst (Retriever.survivorsOf store cands) ∧
    ∀ s ∈ Retriever.survivorsOf store cands,
      ∃ y ∈ Retriever.retrieveFrom store cands,
        Retriever.keyOf y = Retriever.keyOf s := by
  have heq : Retriever.retrieveFrom store cands =
      Retriever.dedupFirst (Retriever.survivorsOf store cands) :=
    Retriever.retrieveGo_eq_dedupGo store cands []
  have hsub : List.Sublist (Retriever.retrieveFrom store cands)
      (Retriever.survivorsOf store cands) := by
    rw [heq]; exact Retriever.dedupGo_sublist _ []
  refine ⟨?_, ?_, hsub, heq, ?_⟩
  · calc (Retriever.retrieveFrom store cands).length
        ≤ (Retriever.survivorsOf store cands).length := hsub.length_le
      _ ≤ cands.length := List.length_filterMap_le _ _
      _ ≤ top_k := h
  · rw [heq]; exact (Retriever.dedupGo_keys _ []).2
  · intro s hs
    rcases Retriever.dedupGo_covers (Retriever.survivorsOf store cands) [] s hs with
      hmem | ⟨y, hy, hky⟩
    · simp at hmem
    · exact ⟨y, by rw [heq]; exact hy, hky⟩

/-- C4 witness: the theorem applied to a store with two candidates sharing
a dedup key; only the first survives. -/
theorem C4_witness :
    (Retriever.retrieveFrom dupStore [0, 1]).length ≤ 2 ∧
    ((Retriever.retrieveFrom dupStore [0, 1]).map Retriever.keyOf).Nodup ∧
    List.Sublist (Retriever.retrieveFrom dupStore [0, 1])
      (Retriever.survivorsOf dupStore [0, 1]) ∧
    Retriever.retrieveFrom dupStore [0, 1] =
      Retriever.dedupFirst (Retriever.survivorsOf dupStore [0, 1]) ∧
    ∀ s ∈ Retriever.survivorsOf dupStore [0, 1],
      ∃ y ∈ Retriever.retrieveFrom dupStore [0, 1],
        Retriever.keyOf y = Retriever.keyOf s :=
  C4_dedup_confirmed dupStore [0, 1] 2 (by decide)

/-! ## Claim C9 -/

/-- C9 (counterexample): the claim lists `example` among the prose words
whose presence makes `is_math_block` true and the chunk dropped, but
`example` contains none of the `MATH_TOKENS` character sequences: a text
containing it is not flagged and is returned by `retrieve`. -/
theorem C9_example_counterexample :
    subListOf "example".data "He worked through one example here.".data = true ∧
    Retriever.is_math_block "He worked through one example here." = false ∧
    Retriever.retrieveFrom exampleStore [0] =
      [⟨"ch1", "He worked through one example here.", "text"⟩] := by decide

/-- C9 (amended): `is_math_block`'s token signal is plain substring
containment over `MATH_TOKENS`, so any text containing one of the token
character sequences anywhere — also inside ordinary prose words such as
`explain` (which contains `exp`) or `limit` (which contains `lim`), though
not `example`, which contains none of them — is classified as math, and a
chunk whose raw text is so classified contributes nothing to any retrieval
result. -/
theorem C9_token_substring_amended :
    (∀ (t tok : String), tok ∈ Retriever.MATH_TOKENS →
      subListOf tok.data t.data = true → Retriever.is_math_block t = true) ∧
    Retriever.is_math_block "We explain the limit idea in plain prose." = true ∧
    (∀ (store : List Retriever.StoreEntry) (i : Int) (cands : List Int),
      Retriever.is_math_block
        (Retriever.normEntry (store.getD i.toNat (.str ""))).text = true →
      Retriever.retrieveFrom store cands =
        Retriever.retrieveFrom store (cands.filter (fun j => j != i))) := by
  refine ⟨?_, by decide, ?_⟩
  · intro t tok htok hsub
    have htokne : tok.data ≠ [] := by
      have hall : ∀ x ∈ Retriever.MATH_TOKENS, x.data ≠ [] := by decide
      exact hall tok htok
    have htne : ¬ t.data.isEmpty = true := by
      intro he
      rw [List.isEmpty_iff] at he
      rw [he] at hsub
      simp [subListOf, List.isEmpty_iff] at hsub
      exact htokne hsub
    have hcount : 1 ≤ (Retriever.MATH_TOKENS.filter
        (fun u => subListOf u.data t.data)).length := by
      have : tok ∈ Retriever.MATH_TOKENS.filter
          (fun u => subListOf u.data t.data) :=
        List.mem_filter.mpr ⟨htok, hsub⟩
      exact List.length_pos.mpr (List.ne_nil_of_mem this)
    simp only [Retriever.is_math_block, htne, if_false]
    rw [if_pos hcount]
    simp
  · intro store i cands h
    exact Retriever.retrieveGo_drop_none store i
      (Retriever.survives_none_of_math store i h) cands []

/-- C9 witness: the general token conjunct applied to the token `exp`
inside the word `explain`. -/
theorem C9_witness : Retriever.is_math_block "They explain the idea." = true :=
  C9_token_substring_amended.1 "They explain the idea." "exp" (by decide) (by decide)

/-! ## Claim C10 -/

/-- C10 (confirmed): two successive `retrieve` calls with the same query
against the same on-disk artifacts and the same (deterministic) embedding
and search return the same result — including the failure cases — and the
second call leaves the lazily loaded module state unchanged. -/
theorem C10_idempotence_confirmed {Ix : Type}
    (search : Ix → String → Nat → List Int) (fs : Retriever.KBFiles Ix)
    (query : String) (top_k : Nat) (st : Retriever.KBState Ix) :
    (Retriever.retrieve_stateful search fs query top_k
        (Retriever.retrieve_stateful search fs query top_k st).2).1 =
      (Retriever.retrieve_stateful search fs query top_k st).1 ∧
    (Retriever.retrieve_stateful search fs query top_k
        (Retriever.retrieve_stateful search fs query top_k st).2).2 =
      (Retriever.retrieve_stateful search fs query top_k st).2 := by
  obtain ⟨oc, oi⟩ := st
  obtain ⟨fc, fi⟩ := fs
  cases oc <;> cases oi <;> cases fc <;> cases fi <;>
    simp [Retriever.retrieve_stateful, Retriever._load_kb]

/-! ## Word/substring lemmas and planner support -/

theorem subListOf_of_drop_take :
    ∀ (s : List Char) (i : Nat) (w : List Char),
      (s.drop i).take w.length = w → subListOf w s = true := by
  intro s
  induction s with
  | nil =>
    intro i w h
    simp at h
    subst h
    rfl
  | cons c t ih =>
    intro i w h
    cases i with
    | zero =>
      simp only [List.drop_zero] at h
      have hpre : w <+: c :: t := h ▸ List.take_prefix _ _
      unfold subListOf
      rw [List.isPrefixOf_iff_prefix.mpr hpre]
      simp
    | succ j =>
      simp only [List.drop_succ_cons] at h
      unfold subListOf
      rw [ih j w h]
      simp

theorem containsWord_imp_containsStr (w s : String)
    (h : containsWord w s = true) : containsStr w s = true := by
  unfold containsWord containsWordL at h
  rw [List.any_eq_true] at h
  obtain ⟨i, _, hw⟩ := h
  unfold wordAt at hw
  simp only [Bool.and_eq_true, decide_eq_true_eq] at hw
  exact subListOf_of_drop_take s.data i w.data hw.1.1

namespace BPlanner

theorem action_of_eq (q : String) :
    action_of q =
      if quiz_intent_keywords.any (fun k => containsStr k q) then "generate_quiz"
      else "retrieve_and_explain" := by
  unfold action_of
  by_cases h : quiz_intent_keywords.any (fun k => containsStr k q) = true
  · simp [h]
  · simp [h]

/-- With a never-failing profile read, `planner_decide` returns the plan
assembled from its three steps. -/
theorem pure_ok {ε : Type} (tsf : String → String → String)
    (topics : List String) (sid q : String) (targ : Option String) :
    planner_decide (fun s t => (Except.ok (tsf s t) : Except ε String))
        topics sid q targ =
      Except.ok
        { action := action_of (lowerStr (stripStr q))
          topic := chosen_topic_of topics targ (lowerStr (stripStr q))
          difficulty := override_difficulty (lowerStr (stripStr q))
            (base_difficulty (if sid = "" then "medium"
              else tsf sid (chosen_topic_of topics targ (lowerStr (stripStr q))))) } := by
  unfold planner_decide
  by_cases hsid : sid = "" <;> simp [hsid, Except.bind]

/-- Field extraction from a successful `planner_decide` call. -/
theorem ok_fields {ε : Type} {ts : String → String → Except ε String}
    {topics : List String} {sid q : String} {targ : Option String} {p : Plan}
    (h : planner_decide ts topics sid q targ = Except.ok p) :
    p.action = action_of (lowerStr (stripStr q)) ∧
    p.topic = chosen_topic_of topics targ (lowerStr (stripStr q)) ∧
    ∃ strength : String,
      p.difficulty = override_difficulty (lowerStr (stripStr q))
        (base_difficulty strength) := by
  unfold planner_decide at h
  simp only [] at h
  cases hst : (if sid ≠ "" then ts sid (chosen_topic_of topics targ (lowerStr (stripStr q)))
      else Except.ok "medium") with
  | error e =>
    rw [hst] at h
    simp [Except.bind] at h
  | ok strength =>
    rw [hst] at h
    simp only [Except.bind, Except.ok.injEq] at h
    subst h
    exact ⟨rfl, rfl, strength, rfl⟩

theorem override_hard {q d : String}
    (h : containsStr "hard" q = true ∨ containsStr "difficult" q = true) :
    override_difficulty q d = "hard" := by
  unfold override_difficulty
  rw [if_pos (by simpa using h)]

theorem override_easy {q d : String} (he : containsStr "easy" q = true)
    (hh : ¬ containsStr "hard" q = true)
    (hd : ¬ containsStr "difficult" q = true) :
    override_difficulty q d = "easy" := by
  unfold override_difficulty
  rw [if_neg (by simp [hh, hd]), if_pos he]

theorem override_none {q d : String} (he : ¬ containsStr "easy" q = true)
    (hh : ¬ containsStr "hard" q = true)
    (hd : ¬ containsStr "difficult" q = true) :
    override_difficulty q d = d := by
  unfold override_difficulty
  rw [if_neg (by simp [hh, hd]), if_neg he]

theorem match_best_unique {topics : List String} {q : String} {x : String}
    (hperm : topics.Perm VALID_TOPICS) (hx : x ∈ VALID_TOPICS)
    (hpx : containsStr x (lowerStr q) = true)
    (huniq : ∀ y ∈ VALID_TOPICS, containsStr y (lowerStr q) = true → y = x) :
    _match_best_topic topics q = x := by
  unfold _match_best_topic
  simp only []
  cases hf : topics.find? (fun t => containsStr t (lowerStr q)) with
  | none =>
    exfalso
    have := List.find?_eq_none.mp hf x (hperm.mem_iff.mpr hx)
    simp [hpx] at this
  | some t =>
    have h1 := List.find?_some hf
    have h2 := List.mem_of_find?_eq_some hf
    exact huniq t (hperm.mem_iff.mp h2) h1

theorem chosen_of_match {topics : List String} {q t : String}
    (h : _match_best_topic topics q = t) (ht : t ≠ "") :
    chosen_topic_of topics none q = _normalize_topic t := by
  unfold chosen_topic_of
  rw [Option.getD_none]
  unfold pyOr
  rw [h]
  simp [ht]

end BPlanner

namespace APlanner

theorem agents_action_of_eq (q : String) :
    action_of q =
      if quiz_keywords.any (fun k => containsStr k q) then "generate_quiz"
      else "retrieve_and_explain" := by
  unfold action_of
  by_cases h : quiz_keywords.any (fun k => containsStr k q) = true
  · simp [h]
  · simp [h]

theorem agents_override_hard {q d : String}
    (h : containsWord "hard" q = true ∨ containsWord "difficult" q = true) :
    override_difficulty q d = "hard" := by
  unfold override_difficulty
  rw [if_pos (by simpa using h)]

theorem agents_override_easy {q d : String} (he : containsWord "easy" q = true)
    (hh : ¬ containsWord "hard" q = true)
    (hd : ¬ containsWord "difficult" q = true) :
    override_difficulty q d = "easy" := by
  unfold override_difficulty
  rw [if_neg (by simp [hh, hd]), if_pos he]

theorem agents_override_none {q d : String} (he : ¬ containsWord "easy" q = true)
    (hh : ¬ containsWord "hard" q = true)
    (hd : ¬ containsWord "difficult" q = true) :
    override_difficulty q d = d := by
  unfold override_difficulty
  rw [if_neg (by simp [hh, hd]), if_neg he]

end APlanner

/-! ## Claim C5 -/

/-- C5 (counterexample): the keyword list of `Backend/planner.py` omits
`solve`, so a query containing `solve` and none of its six quiz keywords
yields `retrieve_and_explain` there, against the claim's `generate_quiz`. -/
theorem C5_solve_counterexample :
    containsStr "solve" (lowerStr (stripStr "please solve this integral now")) = true ∧
    BPlanner.planner_decide (fun _ _ => (Except.ok "medium" : Except Unit String))
      BPlanner.VALID_TOPICS "s1" "please solve this integral now" none =
      Except.ok ⟨"retrieve_and_explain", "please solve this integral now", "medium"⟩ := by
  constructor
  · decide
  · rfl

/-- C5 (amended): the agents planner (`Backend/agents/planner.py`) maps a
query to `generate_quiz` exactly when it contains one of quiz, practice,
test, exercise, questions, mcq, solve, else `retrieve_and_explain`; the
backend planner (`Backend/planner.py`) does the same over its keyword list,
which omits `solve`.  The end-to-end scenarios hold for both planners:
`explain matrices` yields `retrieve_and_explain` with topic `matrices`, and
`give me a hard quiz on probability` yields `generate_quiz` with topic
`probability` (for the backend planner, under any iteration order of its
topic set). -/
theorem C5_action_amended :
    (∀ (ε : Type) (ts : String → String → Except ε String) (avail : Bool)
      (sid q : String) (targ : Option String),
      (APlanner.planner_decide ts avail sid q targ).action =
        (if APlanner.quiz_keywords.any
            (fun k => containsStr k (lowerStr (stripStr q))) then "generate_quiz"
         else "retrieve_and_explain")) ∧
    (∀ (ε : Type) (ts : String → String → Except ε String)
      (topics : List String) (sid q : String) (targ : Option String)
      (p : BPlanner.Plan),
      BPlanner.planner_decide ts topics sid q targ = Except.ok p →
      p.action =
        (if BPlanner.quiz_intent_keywords.any
            (fun k => containsStr k (lowerStr (stripStr q))) then "generate_quiz"
         else "retrieve_and_explain")) ∧
    (∀ (ε : Type) (ts : String → String → Except ε String) (avail : Bool),
      (APlanner.planner_decide ts avail "s1" "explain matrices" none).action =
        "retrieve_and_explain" ∧
      (APlanner.planner_decide ts avail "s1" "explain matrices" none).topic =
        "matrices" ∧
      (APlanner.planner_decide ts avail "s1" "give me a hard quiz on probability"
        none).action = "generate_quiz" ∧
      (APlanner.planner_decide ts avail "s1" "give me a hard quiz on probability"
        none).topic = "probability") ∧
    (∀ (ε : Type) (tsf : String → String → String) (topics : List String),
      topics.Perm BPlanner.VALID_TOPICS →
      (∃ p : BPlanner.Plan,
        BPlanner.planner_decide (fun s t => (Except.ok (tsf s t) : Except ε String))
          topics "s1" "explain matrices" none = Except.ok p ∧
        p.action = "retrieve_and_explain" ∧ p.topic = "matrices") ∧
      (∃ p : BPlanner.Plan,
        BPlanner.planner_decide (fun s t => (Except.ok (tsf s t) : Except ε String))
          topics "s1" "give me a hard quiz on probability" none = Except.ok p ∧
        p.action = "generate_quiz" ∧ p.topic = "probability")) := by
  refine ⟨?_, ?_, ?_, ?_⟩
  · intro ε ts avail sid q targ
    exact APlanner.agents_action_of_eq (lowerStr (stripStr q))
  · intro ε ts topics sid q targ p h
    rw [(BPlanner.ok_fields h).1]
    exact BPlanner.action_of_eq (lowerStr (stripStr q))
  · intro ε ts avail
    exact ⟨rfl, rfl, rfl, rfl⟩
  · intro ε tsf topics hperm
    constructor
    · have hmatch : BPlanner._match_best_topic topics
          (lowerStr (stripStr "explain matrices")) = "matrices" :=
        BPlanner.match_best_unique hperm (by decide) (by decide) (by decide)
      refine ⟨_, BPlanner.pure_ok tsf topics "s1" "explain matrices" none, ?_, ?_⟩
      · exact (by decide : BPlanner.action_of
          (lowerStr (stripStr "explain matrices")) = "retrieve_and_explain")
      · rw [BPlanner.chosen_of_match hmatch (by decide)]
        exact (by decide : BPlanner._normalize_topic "matrices" = "matrices")
    · have hmatch : BPlanner._match_best_topic topics
          (lowerStr (stripStr "give me a hard quiz on probability")) = "probability" :=
        BPlanner.match_best_unique hperm (by decide) (by decide) (by decide)
      refine ⟨_, BPlanner.pure_ok tsf topics "s1"
        "give me a hard quiz on probability" none, ?_, ?_⟩
      · exact (by decide : BPlanner.action_of
          (lowerStr (stripStr "give me a hard quiz on probability")) = "generate_quiz")
      · rw [BPlanner.chosen_of_match hmatch (by decide)]
        exact (by decide : BPlanner._normalize_topic "probability" = "probability")

/-- C5 witness: the amended theorem instantiated at the source iteration
order and a solve-free quiz query for the backend planner, and at a
solve query for the agents planner. -/
theorem C5_witness :
    (APlanner.planner_decide (fun _ _ => (Except.ok "medium" : Except Unit String))
      true "s1" "solve problems on integrals" none).action = "generate_quiz" ∧
    (∃ p : BPlanner.Plan,
      BPlanner.planner_decide (fun _ _ => (Except.ok "medium" : Except Unit String))
        BPlanner.VALID_TOPICS "s1" "give me a hard quiz on probability" none =
        Except.ok p ∧
      p.action = "generate_quiz" ∧ p.topic = "probability") := by
  constructor
  · rw [C5_action_amended.1 Unit _ true "s1" "solve problems on integrals" none]
    decide
  · exact ((C5_action_amended.2.2.2 Unit (fun _ _ => "medium")
      BPlanner.VALID_TOPICS (List.Perm.refl _)).2)

/-! ## Claim C6 -/

/-- C6 (confirmed): in both planners the profile strength fixes the base
difficulty (weak→easy, strong→hard, else medium); a standalone `easy`
forces easy when `hard`/`difficult` are absent; a standalone `hard` or
`difficult` forces hard, with the hard-check after the easy-check, so that
a query containing both yields hard and the literal override beats the
history value — in particular `explain matrices hard` with a weak profile
for matrices yields hard. -/
theorem C6_difficulty_override_confirmed :
    (∀ (ε : Type) (ts : String → String → Except ε String)
      (topics : List String) (sid q : String) (targ : Option String)
      (p : BPlanner.Plan),
      BPlanner.planner_decide ts topics sid q targ = Except.ok p →
      (containsWord "hard" (lowerStr (stripStr q)) = true ∨
       containsWord "difficult" (lowerStr (stripStr q)) = true) →
      p.difficulty = "hard") ∧
    (∀ (ε : Type) (ts : String → String → Except ε String)
      (topics : List String) (sid q : String) (targ : Option String)
      (p : BPlanner.Plan),
      BPlanner.planner_decide ts topics sid q targ = Except.ok p →
      containsWord "easy" (lowerStr (stripStr q)) = true →
      ¬ containsStr "hard" (lowerStr (stripStr q)) = true →
      ¬ containsStr "difficult" (lowerStr (stripStr q)) = true →
      p.difficulty = "easy") ∧
    (∀ (ε : Type) (tsf : String → String → String)
      (topics : List String) (sid q : String) (targ : Option String),
      sid ≠ "" →
      ¬ containsStr "easy" (lowerStr (stripStr q)) = true →
      ¬ containsStr "hard" (lowerStr (stripStr q)) = true →
      ¬ containsStr "difficult" (lowerStr (stripStr q)) = true →
      ∃ p : BPlanner.Plan,
        BPlanner.planner_decide (fun s t => (Except.ok (tsf s t) : Except ε String))
          topics sid q targ = Except.ok p ∧
        p.difficulty =
          (if tsf sid p.topic = "weak" then "easy"
           else if tsf sid p.topic = "strong" then "hard" else "medium")) ∧
    (∀ (ε : Type) (ts : String → String → Except ε String) (avail : Bool)
      (sid q : String) (targ : Option String),
      (containsWord "hard" (lowerStr (stripStr q)) = true ∨
       containsWord "difficult" (lowerStr (stripStr q)) = true) →
      (APlanner.planner_decide ts avail sid q targ).difficulty = "hard") ∧
    (∀ (ε : Type) (ts : String → String → Except ε String) (avail : Bool)
      (sid q : String) (targ : Option String),
      containsWord "easy" (lowerStr (stripStr q)) = true →
      ¬ containsWord "hard" (lowerStr (stripStr q)) = true →
      ¬ containsWord "difficult" (lowerStr (stripStr q)) = true →
      (APlanner.planner_decide ts avail sid q targ).difficulty = "easy") ∧
    (∀ (ε : Type) (tsf : String → String → String) (sid q : String)
      (targ : Option String),
      sid ≠ "" →
      ¬ containsWord "easy" (lowerStr (stripStr q)) = true →
      ¬ containsWord "hard" (lowerStr (stripStr q)) = true →
      ¬ containsWord "difficult" (lowerStr (stripStr q)) = true →
      (APlanner.planner_decide (fun s t => (Except.ok (tsf s t) : Except ε String))
          true sid q targ).difficulty =
        (if tsf sid (APlanner.planner_decide
              (fun s t => (Except.ok (tsf s t) : Except ε String))
              true sid q targ).topic = "weak" then "easy"
         else if tsf sid (APlanner.planner_decide
              (fun s t => (Except.ok (tsf s t) : Except ε String))
              true sid q targ).topic = "strong" then "hard" else "medium")) ∧
    (∀ (ε : Type) (tsf : String → String → String) (topics : List String),
      tsf "s1" "matrices" = "weak" →
      (∃ p : BPlanner.Plan,
        BPlanner.planner_decide (fun s t => (Except.ok (tsf s t) : Except ε String))
          topics "s1" "explain matrices hard" none = Except.ok p ∧
        p.difficulty = "hard") ∧
      (APlanner.planner_decide (fun s t => (Except.ok (tsf s t) : Except ε String))
          true "s1" "explain matrices hard" none).difficulty = "hard") := by
  refine ⟨?_, ?_, ?_, ?_, ?_, ?_, ?_⟩
  · intro ε ts topics sid q targ p h hw
    rw [(BPlanner.ok_fields h).2.2.choose_spec]
    exact BPlanner.override_hard
      (hw.imp (containsWord_imp_containsStr _ _) (containsWord_imp_containsStr _ _))
  · intro ε ts topics sid q targ p h he hh hd
    rw [(BPlanner.ok_fields h).2.2.choose_spec]
    exact BPlanner.override_easy (containsWord_imp_containsStr _ _ he) hh hd
  · intro ε tsf topics sid q targ hsid he hh hd
    refine ⟨_, BPlanner.pure_ok tsf topics sid q targ, ?_⟩
    rw [BPlanner.override_none he hh hd, if_neg hsid]
    rfl
  · intro ε ts avail sid q targ hw
    exact APlanner.agents_override_hard hw
  · intro ε ts avail sid q targ he hh hd
    exact APlanner.agents_override_easy he hh hd
  · intro ε tsf sid q targ hsid he hh hd
    show APlanner.override_difficulty _ _ = _
    rw [APlanner.agents_override_none he hh hd]
    unfold APlanner.history_difficulty
    rw [if_pos (by simp [hsid])]
    rfl
  · intro ε tsf topics hw
    constructor
    · refine ⟨_, BPlanner.pure_ok tsf topics "s1" "explain matrices hard" none, ?_⟩
      show BPlanner.override_difficulty (lowerStr (stripStr "explain matrices hard"))
        (BPlanner.base_difficulty (if "s1" = "" then "medium"
          else tsf "s1" (BPlanner.chosen_topic_of topics none
            (lowerStr (stripStr "explain matrices hard"))))) = "hard"
      apply BPlanner.override_hard
      exact Or.inl (by decide)
    · show APlanner.override_difficulty (lowerStr (stripStr "explain matrices hard"))
        (APlanner.history_difficulty (fun s t => (Except.ok (tsf s t) : Except ε String))
          true "s1" (APlanner.chosen_topic_of none
            (stripStr "explain matrices hard"))) = "hard"
      apply APlanner.agents_override_hard
      exact Or.inl (by decide)

/-- C6 witness: the override conjuncts applied to concrete queries. -/
theorem C6_witness :
    (APlanner.planner_decide (fun _ _ => (Except.ok "strong" : Except Unit String))
      true "s1" "keep it easy please" none).difficulty = "easy" ∧
    (APlanner.planner_decide (fun _ _ => (Except.ok "weak" : Except Unit String))
      true "s1" "make this easy but hard too" none).difficulty = "hard" ∧
    (APlanner.planner_decide (fun s t =>
        (Except.ok (if t = "matrices" then "weak" else "medium") : Except Unit String))
      true "s1" "explain matrices hard" none).difficulty = "hard" := by
  refine ⟨?_, ?_, ?_⟩
  · exact C6_difficulty_override_confirmed.2.2.2.2.1 Unit _ true "s1"
      "keep it easy please" none (by decide) (by decide) (by decide)
  · exact C6_difficulty_override_confirmed.2.2.2.1 Unit _ true "s1"
      "make this easy but hard too" none (Or.inl (by decide))
  · exact (C6_difficulty_override_confirmed.2.2.2.2.2.2 Unit
      (fun _ t => if t = "matrices" then "weak" else "medium")
      BPlanner.VALID_TOPICS (by decide)).2

/-! ## Claim C7 -/

/-- C7 (counterexample): `Backend/planner.py` wraps no `try` around its
`topic_strength` read, so with a non-empty student id a failing profile
read propagates out of `planner_decide` — it raises, against the claim
that it never does. -/
theorem C7_backend_raises_counterexample :
    BPlanner.planner_decide
      (fun _ _ => (Except.error "profile read failed" : Except String String))
      BPlanner.VALID_TOPICS "s1" "explain matrices" none =
      Except.error "profile read failed" := rfl

/-- A failing profile read and a read returning `medium` produce the same
guarded history difficulty in the agents planner. -/
theorem APlanner_history_error_eq (ε : Type) (e : ε) (avail : Bool)
    (sid t : String) :
    APlanner.history_difficulty (fun _ _ => (Except.error e : Except ε String))
        avail sid t =
      APlanner.history_difficulty (fun _ _ => (Except.ok "medium" : Except ε String))
        avail sid t := by
  unfold APlanner.history_difficulty
  by_cases h : (sid ≠ "" && avail) = true
  · rw [if_pos h, if_pos h]
    rfl
  · rw [if_neg h, if_neg h]

/-- With an empty student id the agents planner skips the profile read. -/
theorem APlanner_history_empty_sid (ε : Type)
    (ts : String → String → Except ε String) (avail : Bool) (t : String) :
    APlanner.history_difficulty ts avail "" t = "medium" := by
  unfold APlanner.history_difficulty
  simp

/-- The backend planner only reads the profile at the student id, so two
profile readers agreeing there give the same plan. -/
theorem BPlanner_ts_congr {ε : Type} (ts₁ ts₂ : String → String → Except ε String)
    (topics : List String) (sid q : String) (targ : Option String)
    (h : ∀ t : String, ts₁ sid t = ts₂ sid t) :
    BPlanner.planner_decide ts₁ topics sid q targ =
      BPlanner.planner_decide ts₂ topics sid q targ := by
  unfold BPlanner.planner_decide
  simp only []
  by_cases hsid : sid ≠ ""
  · rw [if_pos hsid, if_pos hsid, h]
  · rw [if_neg hsid, if_neg hsid]

/-- The agents planner only reads the profile at the student id, so two
profile readers agreeing there give the same plan. -/
theorem APlanner_ts_congr {ε : Type} (ts₁ ts₂ : String → String → Except ε String)
    (avail : Bool) (sid q : String) (targ : Option String)
    (h : ∀ t : String, ts₁ sid t = ts₂ sid t) :
    APlanner.planner_decide ts₁ avail sid q targ =
      APlanner.planner_decide ts₂ avail sid q targ := by
  unfold APlanner.planner_decide APlanner.history_difficulty
  simp only []
  by_cases hg : (sid ≠ "" && avail) = true
  · rw [if_pos hg, if_pos hg, h]
  · rw [if_neg hg, if_neg hg]

/-- C7 (amended): the agents planner never raises — a failing profile read
is caught and treated exactly like strength `medium` — and with an empty
student id both planners skip the read and use `medium`; an absent profile
makes `topic_strength` return `medium`, giving difficulty medium before
any literal query override.  The backend planner, however, propagates a
failing read when the student id is non-empty. -/
theorem C7_planner_failure_amended :
    (∀ (ε : Type) (e : ε) (avail : Bool) (sid q : String) (targ : Option String),
      APlanner.planner_decide (fun _ _ => (Except.error e : Except ε String))
          avail sid q targ =
        APlanner.planner_decide (fun _ _ => (Except.ok "medium" : Except ε String))
          avail sid q targ) ∧
    (∀ (ε : Type) (ts : String → String → Except ε String) (avail : Bool)
      (q : String) (targ : Option String),
      APlanner.planner_decide ts avail "" q targ =
        APlanner.planner_decide (fun _ _ => (Except.ok "medium" : Except ε String))
          avail "" q targ) ∧
    (∀ (ε : Type) (ts : String → String → Except ε String)
      (topics : List String) (q : String) (targ : Option String),
      BPlanner.planner_decide ts topics "" q targ =
        BPlanner.planner_decide (fun _ _ => (Except.ok "medium" : Except ε String))
          topics "" q targ ∧
      ∃ p : BPlanner.Plan, BPlanner.planner_decide ts topics "" q targ = Except.ok p) ∧
    (∀ (ε : Type) (prof : String → String → Option String) (avail : Bool)
      (topics : List String) (sid q : String) (targ : Option String),
      (∀ t : String, prof sid t = none) →
      BPlanner.planner_decide
          (fun s t => (Except.ok (ProgressDB.topic_strength prof s t) : Except ε String))
          topics sid q targ =
        BPlanner.planner_decide (fun _ _ => (Except.ok "medium" : Except ε String))
          topics sid q targ ∧
      APlanner.planner_decide
          (fun s t => (Except.ok (ProgressDB.topic_strength prof s t) : Except ε String))
          avail sid q targ =
        APlanner.planner_decide (fun _ _ => (Except.ok "medium" : Except ε String))
          avail sid q targ) := by
  refine ⟨?_, ?_, ?_, ?_⟩
  · intro ε e avail sid q targ
    simp only [APlanner.planner_decide, APlanner_history_error_eq]
  · intro ε ts avail q targ
    simp only [APlanner.planner_decide, APlanner_history_empty_sid]
  · intro ε ts topics q targ
    constructor
    · unfold BPlanner.planner_decide
      simp
    · unfold BPlanner.planner_decide
      simp [Except.bind]
  · intro ε prof avail topics sid q targ habsent
    have hts : ∀ t : String,
        ProgressDB.topic_strength prof sid t = "medium" := by
      intro t
      unfold ProgressDB.topic_strength
      rw [habsent t]
      rfl
    constructor
    · exact BPlanner_ts_congr _ _ topics sid q targ (fun t => by rw [hts t])
    · exact APlanner_ts_congr _ _ avail sid q targ (fun t => by rw [hts t])

/-- C7 witness: the amended conjuncts applied at concrete inputs. -/
theorem C7_witness :
    BPlanner.planner_decide
        (fun s t => (Except.ok (ProgressDB.topic_strength (fun _ _ => none) s t) :
          Except Unit String))
        BPlanner.VALID_TOPICS "s9" "explain matrices" none =
      BPlanner.planner_decide (fun _ _ => (Except.ok "medium" : Except Unit String))
        BPlanner.VALID_TOPICS "s9" "explain matrices" none :=
  (C7_planner_failure_amended.2.2.2 Unit (fun _ _ => none) true
    BPlanner.VALID_TOPICS "s9" "explain matrices" none (fun _ => rfl)).1

/-! ## Explainer truncation lemmas -/

namespace Explainer

theorem dropWhile_until_space :
    ∀ (l : List Char), spaceC ∈ l →
      ∃ t, l.dropWhile (fun c => !(c == spaceC)) = spaceC :: t := by
  intro l
  induction l with
  | nil => intro h; simp at h
  | cons c rest ih =>
    intro h
    by_cases hc : c = spaceC
    · subst hc
      exact ⟨rest, by simp [List.dropWhile]⟩
    · have hmem : spaceC ∈ rest := by
        rcases List.mem_cons.mp h with heq | hm
        · exact absurd heq.symm hc
        · exact hm
      obtain ⟨t, ht⟩ := ih hmem
      refine ⟨t, ?_⟩
      rw [List.dropWhile_cons_of_pos (by simp [hc])]
      exact ht

theorem rsplitFirst_decomp (s : String) (h : spaceC ∈ s.data) :
    ∃ tail : List Char,
      s.data = (rsplitFirst s).data ++ spaceC :: tail := by
  have hrev : spaceC ∈ s.data.reverse := List.mem_reverse.mpr h
  obtain ⟨t, ht⟩ := dropWhile_until_space s.data.reverse hrev
  refine ⟨(s.data.reverse.takeWhile (fun c => !(c == spaceC))).reverse, ?_⟩
  unfold rsplitFirst
  rw [if_pos h, ht]
  have hsplit : s.data.reverse =
      s.data.reverse.takeWhile (fun c => !(c == spaceC)) ++ (spaceC :: t) := by
    rw [← ht]
    exact (List.takeWhile_append_dropWhile _ _).symm
  calc s.data = s.data.reverse.reverse := by rw [List.reverse_reverse]
    _ = (s.data.reverse.takeWhile (fun c => !(c == spaceC)) ++ (spaceC :: t)).reverse := by
        rw [← hsplit]
    _ = (spaceC :: t).reverse ++
          (s.data.reverse.takeWhile (fun c => !(c == spaceC))).reverse := by
        rw [List.reverse_append]
    _ = _ := by simp

theorem rsplitFirst_prefix (s : String) : (rsplitFirst s).data <+: s.data := by
  by_cases h : spaceC ∈ s.data
  · obtain ⟨tail, ht⟩ := rsplitFirst_decomp s h
    exact ⟨spaceC :: tail, ht.symm⟩
  · unfold rsplitFirst
    rw [if_neg h]

theorem rsplitFirst_next_space (s : String) (h : spaceC ∈ s.data) :
    s.data[(rsplitFirst s).data.length]? = some spaceC := by
  obtain ⟨tail, ht⟩ := rsplitFirst_decomp s h
  rw [ht, List.getElem?_append_right (Nat.le_refl _)]
  simp

theorem rsplitFirst_lt_of_mem (s : String) (h : spaceC ∈ s.data) :
    (rsplitFirst s).data.length < s.data.length := by
  obtain ⟨tail, ht⟩ := rsplitFirst_decomp s h
  rw [ht]
  simp

end Explainer

/-! ## Claim C8 -/

/-- C8 (counterexample): the claim says the truncation never splits a word,
but when the first `max_chars` characters of the joined explanation contain
no space, `rsplit(" ", 1)` keeps the whole prefix, cutting mid-word: a
single 45-character word truncated at 30 yields its 30-character prefix
plus the ellipsis. -/
theorem C8_midword_counterexample :
    Explainer.retrieve_text longWordStore [0] =
      [("ch1", "Pneumonoultramicroscopicsilicovolcanoconiosis")] ∧
    (Explainer.explain longWordStore [0] "t" 3 30).explanation =
      "Pneumonoultramicroscopicsilico..." ∧
    (Explainer.joinedOf (Explainer.retrieve_text longWordStore [0]) 3).data[30]? =
      some 'v' := by
  refine ⟨by decide, by decide, by decide⟩

/-- C8 (amended): for a non-empty retrieval whose blank-line-joined
explanation exceeds `max_chars` characters, the result is `p ++ "..."`
where `p` is a prefix of the joined text of at most `max_chars` characters
obtained by dropping everything from the last space of the
`max_chars`-character prefix; when that prefix contains a space the cut
falls on a space (no word is split), and when it contains none the whole
prefix is kept, which may split a word. -/
theorem C8_truncation_amended (store : List Retriever.StoreEntry)
    (cands : List Int) (topic : String) (top_k max_chars : Nat)
    (hne : Explainer.retrieve_text store cands ≠ [])
    (hlong : max_chars <
      (Explainer.joinedOf (Explainer.retrieve_text store cands) top_k).data.length) :
    ∃ p : String,
      (Explainer.explain store cands topic top_k max_chars).explanation =
        p ++ "..." ∧
      p.data.length ≤ max_chars ∧
      p.data <+:
        (Explainer.joinedOf (Explainer.retrieve_text store cands) top_k).data ∧
      (spaceC ∈ (Explainer.joinedOf (Explainer.retrieve_text store cands)
          top_k).data.take max_chars →
        (Explainer.joinedOf (Explainer.retrieve_text store cands)
          top_k).data[p.data.length]? = some spaceC) := by
  have hjoin : Explainer.joinedOf (Explainer.retrieve_text store cands) top_k =
      String.intercalate "\n\n"
        (Explainer.partsAndSources
          ((Explainer.retrieve_text store cands).take top_k)).1 := rfl
  set joined := Explainer.joinedOf (Explainer.retrieve_text store cands) top_k
    with hjdef
  set s : String := String.mk (joined.data.take max_chars) with hsdef
  refine ⟨Explainer.rsplitFirst s, ?_, ?_, ?_, ?_⟩
  · show (Explainer.explain store cands topic top_k max_chars).explanation = _
    unfold Explainer.explain
    rw [if_neg (by simpa using hne)]
    simp only []
    rw [if_pos (hjoin ▸ hlong)]
    rfl
  · have h1 : (Explainer.rsplitFirst s).data <+: s.data :=
      Explainer.rsplitFirst_prefix s
    have h2 : s.data.length ≤ max_chars := by
      rw [hsdef]
      simp
    exact le_trans h1.length_le h2
  · exact (Explainer.rsplitFirst_prefix s).trans
      (by rw [hsdef]; exact List.take_prefix _ _)
  · intro hsp
    have hsp' : spaceC ∈ s.data := by rw [hsdef]; exact hsp
    have hlt : (Explainer.rsplitFirst s).data.length < max_chars := by
      have := Explainer.rsplitFirst_lt_of_mem s hsp'
      have h2 : s.data.length ≤ max_chars := by rw [hsdef]; simp
      omega
    have := Explainer.rsplitFirst_next_space s hsp'
    rw [hsdef] at this
    rw [← List.getElem?_take_of_lt hlt]
    exact this

/-- C8 witness: the amended theorem at a concrete retrieval cut at a word
boundary. -/
theorem C8_witness :
    ∃ p : String,
      (Explainer.explain probStore [0] "probability" 3 20).explanation =
        p ++ "..." ∧
      p.data.length ≤ 20 ∧
      p.data <+:
        (Explainer.joinedOf (Explainer.retrieve_text probStore [0]) 3).data ∧
      (spaceC ∈ (Explainer.joinedOf (Explainer.retrieve_text probStore [0])
          3).data.take 20 →
        (Explainer.joinedOf (Explainer.retrieve_text probStore [0])
          3).data[p.data.length]? = some spaceC) :=
  C8_truncation_amended probStore [0] "probability" 3 20 (by decide) (by decide)

/-! ## Quiz generator support -/

namespace Quiz

/-- The validity facts asserted of an MCQ by the specification: four
options, a letter answer in A–D, the answered option equal to the stored
explanation, and (conditionally on the explanation not colliding with a
bank distractor) pairwise-distinct options. -/
abbrev GoodMCQ (m : MCQ) : Prop :=
  m.options.length = 4 ∧ m.answer ∈ (['A', 'B', 'C', 'D'] : List Char) ∧
  m.options[m.answer.toNat - 65]? = some m.explanation ∧
  (m.explanation ∉ BASE_DISTRACTORS → m.options.Nodup)

theorem length_filter_ne_ge {α β : Type} [BEq β] [LawfulBEq β]
    (f : α → β) (y : β) :
    ∀ l : List α, (l.map f).Nodup →
      l.length ≤ (l.filter (fun a => !(f a == y))).length + 1 := by
  intro l
  induction l with
  | nil => intro _; simp
  | cons a t ih =>
    intro hnd
    rw [List.map_cons, List.nodup_cons] at hnd
    obtain ⟨hna, hnd⟩ := hnd
    rw [List.filter_cons]
    by_cases hy : (f a == y) = true
    · have hay : f a = y := by simpa using hy
      simp only [hy, Bool.not_true, Bool.false_eq_true, if_false]
      have hself : t.filter (fun b => !(f b == y)) = t := by
        apply List.filter_eq_self.mpr
        intro b hb
        have : f b ≠ y := by
          intro hbe
          have hmem : f b ∈ t.map f := List.mem_map_of_mem f hb
          have heq : f a = f b := by rw [hay, hbe]
          exact hna (heq ▸ hmem)
        simpa using this
      rw [hself]
      simp
    · simp only [hy, Bool.not_false, if_true]
      have := ih hnd
      simp only [List.length_cons]
      omega

theorem distractors_spec (shuf : List String → List String) (padf : Nat → Nat)
    (concept correct : String) (hperm : ∀ l, (shuf l).Perm l) :
    (generate_distractors_for shuf padf concept correct).length = 3 ∧
    (generate_distractors_for shuf padf concept correct).Nodup ∧
    ∀ x ∈ generate_distractors_for shuf padf concept correct,
      x ∈ BASE_DISTRACTORS := by
  have hbank : BASE_DISTRACTORS.Nodup := by decide
  have hlow : (BASE_DISTRACTORS.map lowerStr).Nodup := by decide
  have hfl : 13 ≤ (BASE_DISTRACTORS.filter
      (fun d => !(lowerStr d == lowerStr concept))).length := by
    have h1 := length_filter_ne_ge lowerStr (lowerStr concept) BASE_DISTRACTORS hlow
    have h2 : BASE_DISTRACTORS.length = 14 := rfl
    omega
  set picks := BASE_DISTRACTORS.filter
      (fun d => !(lowerStr d == lowerStr concept)) with hpicks
  have hsl : (shuf picks).length = picks.length := (hperm picks).length_eq
  have htl : ((shuf picks).take 3).length = 3 := by
    rw [List.length_take, hsl]
    omega
  have hgen : generate_distractors_for shuf padf concept correct =
      (shuf picks).take 3 := by
    unfold generate_distractors_for
    simp only []
    rw [← hpicks, htl]
    simp
  refine ⟨by rw [hgen]; exact htl, ?_, ?_⟩
  · rw [hgen]
    exact ((hperm picks).nodup_iff.mpr (hbank.filter _)).sublist
      (List.take_sublist _ _)
  · intro x hx
    rw [hgen] at hx
    have hx1 : x ∈ shuf picks := (List.take_sublist _ _).mem hx
    have hx2 : x ∈ picks := (hperm picks).mem_iff.mp hx1
    exact List.mem_of_mem_filter hx2

theorem char_letter_spec (i : Nat) (h : i < 4) :
    Char.ofNat (i + 65) ∈ (['A', 'B', 'C', 'D'] : List Char) ∧
    (Char.ofNat (i + 65)).toNat - 65 = i := by
  interval_cases i <;> exact ⟨by decide, by decide⟩

theorem options_spec (shufD shufO : List String → List String)
    (padf : Nat → Nat) (concept correct : String)
    (hD : ∀ l, (shufD l).Perm l) (hO : ∀ l, (shufO l).Perm l) :
    (shufO (generate_distractors_for shufD padf concept correct ++
        [correct])).length = 4 ∧
    correct ∈ shufO (generate_distractors_for shufD padf concept correct ++
        [correct]) ∧
    (correct ∉ BASE_DISTRACTORS →
      (shufO (generate_distractors_for shufD padf concept correct ++
        [correct])).Nodup) := by
  obtain ⟨hlen, hnd, hsub⟩ := distractors_spec shufD padf concept correct hD
  set d := generate_distractors_for shufD padf concept correct with hd
  have hperm4 := hO (d ++ [correct])
  refine ⟨?_, ?_, ?_⟩
  · rw [hperm4.length_eq, List.length_append, hlen]
    rfl
  · exact hperm4.mem_iff.mpr (List.mem_append_right d (List.mem_singleton.mpr rfl))
  · intro hnb
    apply hperm4.nodup_iff.mpr
    apply List.Nodup.append hnd (List.nodup_singleton correct)
    intro x hx hx1
    rw [List.mem_singleton] at hx1
    subst hx1
    exact hnb (hsub x hx)

theorem buildMCQ_good (shufD shufO : List String → List String)
    (padf : Nat → Nat) (chapter concept definition : String)
    (hD : ∀ l, (shufD l).Perm l) (hO : ∀ l, (shufO l).Perm l) :
    GoodMCQ (buildMCQ shufD shufO padf chapter concept definition) := by
  obtain ⟨hlen, hmem, hnd⟩ :=
    options_spec shufD shufO padf concept definition hD hO
  set options := shufO (generate_distractors_for shufD padf concept definition ++
    [definition]) with hopt
  have hidx : options.indexOf definition < 4 := by
    rw [← hlen]
    exact List.indexOf_lt_length.mpr hmem
  obtain ⟨hletter, hsub⟩ := char_letter_spec (options.indexOf definition) hidx
  refine ⟨hlen, hletter, ?_, hnd⟩
  show options[(Char.ofNat (options.indexOf definition + 65)).toNat - 65]? =
    some definition
  rw [hsub]
  have := List.indexOf_get? hmem
  simpa [List.get?_eq_getElem?] using this

theorem fallback_mcq_good (shufD shufO : List String → List String)
    (padf : Nat → Nat) (topic chapter : String)
    (hD : ∀ l, (shufD l).Perm l) (hO : ∀ l, (shufO l).Perm l) :
    GoodMCQ (fallback_mcq shufD shufO padf topic chapter) := by
  unfold fallback_mcq
  simp only []
  set concept := if stripStr (String.intercalate " " ((pySplit topic).take 3)) = ""
    then "the topic" else stripStr (String.intercalate " " ((pySplit topic).take 3))
    with hc
  set correct := "A brief description of " ++ concept ++ "." with hcorr
  obtain ⟨hlen, hmem, hnd⟩ := options_spec shufD shufO padf concept correct hD hO
  set options := shufO (generate_distractors_for shufD padf concept correct ++
    [correct]) with hopt
  have hidx : options.indexOf correct < 4 := by
    rw [← hlen]
    exact List.indexOf_lt_length.mpr hmem
  obtain ⟨hletter, hsub⟩ := char_letter_spec (options.indexOf correct) hidx
  refine ⟨hlen, hletter, ?_, hnd⟩
  show options[(Char.ofNat (options.indexOf correct + 65)).toNat - 65]? =
    some correct
  rw [hsub]
  have := List.indexOf_get? hmem
  simpa [List.get?_eq_getElem?] using this

theorem sentence_to_mcq_good (O : QuizOracle) (k : Nat)
    (sentence chapter : String) (m : MCQ)
    (hperm : ∀ j l, (O.shuf j l).Perm l)
    (h : sentence_to_mcq O k sentence chapter = some m) : GoodMCQ m := by
  unfold sentence_to_mcq at h
  cases hc : tryPat O.eng 0 sentence <|> tryPat O.eng 1 sentence <|>
      tryPat O.eng 2 sentence <|> tryPat O.eng 3 sentence <|>
      trySimple O.eng sentence with
  | none => rw [hc] at h; exact absurd h (by simp)
  | some cd =>
    rw [hc] at h
    obtain ⟨c, d⟩ := cd
    simp only [Option.some.injEq] at h
    subst h
    exact buildMCQ_good _ _ _ chapter c d (hperm (2 * k)) (hperm (2 * k + 1))

theorem sentLoop_good (O : QuizOracle) (n : Nat) (chapter : String)
    (hperm : ∀ j l, (O.shuf j l).Perm l) :
    ∀ (sents : List String) (mcqs : List MCQ),
      (∀ x ∈ mcqs, GoodMCQ x) →
      (∀ r, sentLoop O n chapter sents mcqs = .inl r → ∀ x ∈ r, GoodMCQ x) ∧
      (∀ r, sentLoop O n chapter sents mcqs = .inr r → ∀ x ∈ r, GoodMCQ x) := by
  intro sents
  induction sents with
  | nil =>
    intro mcqs hm
    constructor
    · intro r hr
      simp only [sentLoop, Sum.inl.injEq] at hr
      subst hr
      exact hm
    · intro r hr
      simp [sentLoop] at hr
  | cons s rest ih =>
    intro mcqs hm
    have hm' : ∀ x ∈ (match sentence_to_mcq O mcqs.length s chapter with
        | some m => mcqs ++ [m]
        | none => mcqs), GoodMCQ x := by
      cases hs : sentence_to_mcq O mcqs.length s chapter with
      | none => simpa using hm
      | some m =>
        simp only []
        intro x hx
        rcases List.mem_append.mp hx with hx | hx
        · exact hm x hx
        · rw [List.mem_singleton] at hx
          subst hx
          exact sentence_to_mcq_good O mcqs.length s chapter x hperm hs
    set mcqs2 := (match sentence_to_mcq O mcqs.length s chapter with
      | some m => mcqs ++ [m]
      | none => mcqs) with hmdef
    have hstep : sentLoop O n chapter (s :: rest) mcqs =
        if n ≤ mcqs2.length then .inr mcqs2
        else sentLoop O n chapter rest mcqs2 := rfl
    constructor
    · intro r hr
      rw [hstep] at hr
      by_cases hn : n ≤ mcqs2.length
      · rw [if_pos hn] at hr
        exact absurd hr (by simp)
      · rw [if_neg hn] at hr
        exact (ih mcqs2 hm').1 r hr
    · intro r hr
      rw [hstep] at hr
      by_cases hn : n ≤ mcqs2.length
      · rw [if_pos hn] at hr
        injection hr with h1
        subst h1
        exact hm'
      · rw [if_neg hn] at hr
        exact (ih mcqs2 hm').2 r hr

theorem chunkLoop_good (O : QuizOracle) (n : Nat)
    (hperm : ∀ j l, (O.shuf j l).Perm l) :
    ∀ (chunks : List Retriever.Chunk) (mcqs : List MCQ),
      (∀ x ∈ mcqs, GoodMCQ x) →
      (∀ r, chunkLoop O n chunks mcqs = .inl r → ∀ x ∈ r, GoodMCQ x) ∧
      (∀ r, chunkLoop O n chunks mcqs = .inr r → ∀ x ∈ r, GoodMCQ x) := by
  intro chunks
  induction chunks with
  | nil =>
    intro mcqs hm
    constructor
    · intro r hr
      simp only [chunkLoop, Sum.inl.injEq] at hr
      subst hr
      exact hm
    · intro r hr
      simp [chunkLoop] at hr
  | cons ch rest ih =>
    intro mcqs hm
    have hstep : chunkLoop O n (ch :: rest) mcqs =
        match sentLoop O n ch.chapter
            (extract_candidate_sentences (clean_text ch.text)) mcqs with
        | .inr r => .inr r
        | .inl m' => chunkLoop O n rest m' := rfl
    constructor
    · intro r hr
      rw [hstep] at hr
      cases hs : sentLoop O n ch.chapter
          (extract_candidate_sentences (clean_text ch.text)) mcqs with
      | inr r' =>
        simp only [hs] at hr
        exact absurd hr (by simp)
      | inl m' =>
        simp only [hs] at hr
        have hgood := (sentLoop_good O n ch.chapter hperm _ mcqs hm).1 m' hs
        exact (ih m' hgood).1 r hr
    · intro r hr
      rw [hstep] at hr
      cases hs : sentLoop O n ch.chapter
          (extract_candidate_sentences (clean_text ch.text)) mcqs with
      | inr r' =>
        simp only [hs, Sum.inr.injEq] at hr
        subst hr
        exact (sentLoop_good O n ch.chapter hperm _ mcqs hm).2 r' hs
      | inl m' =>
        simp only [hs] at hr
        have hgood := (sentLoop_good O n ch.chapter hperm _ mcqs hm).1 m' hs
        exact (ih m' hgood).2 r hr

end Quiz

namespace Quiz

theorem sentLoop_len (O : QuizOracle) (n : Nat) (chapter : String) :
    ∀ (sents : List String) (mcqs : List MCQ), mcqs.length < n →
      (∀ r, sentLoop O n chapter sents mcqs = .inl r → r.length < n) ∧
      (∀ r, sentLoop O n chapter sents mcqs = .inr r → r.length = n) := by
  intro sents
  induction sents with
  | nil =>
    intro mcqs hlt
    constructor
    · intro r hr
      simp only [sentLoop, Sum.inl.injEq] at hr
      subst hr
      exact hlt
    · intro r hr
      simp [sentLoop] at hr
  | cons s rest ih =>
    intro mcqs hlt
    set mcqs2 := (match sentence_to_mcq O mcqs.length s chapter with
      | some m => mcqs ++ [m]
      | none => mcqs) with hmdef
    have hlen2 : mcqs2.length ≤ mcqs.length + 1 := by
      rw [hmdef]
      cases sentence_to_mcq O mcqs.length s chapter <;> simp
    have hstep : sentLoop O n chapter (s :: rest) mcqs =
        if n ≤ mcqs2.length then .inr mcqs2
        else sentLoop O n chapter rest mcqs2 := rfl
    constructor
    · intro r hr
      rw [hstep] at hr
      by_cases hn : n ≤ mcqs2.length
      · rw [if_pos hn] at hr
        exact absurd hr (by simp)
      · rw [if_neg hn] at hr
        exact (ih mcqs2 (Nat.lt_of_not_le hn)).1 r hr
    · intro r hr
      rw [hstep] at hr
      by_cases hn : n ≤ mcqs2.length
      · rw [if_pos hn] at hr
        injection hr with h1
        subst h1
        omega
      · rw [if_neg hn] at hr
        exact (ih mcqs2 (Nat.lt_of_not_le hn)).2 r hr

theorem chunkLoop_len (O : QuizOracle) (n : Nat) :
    ∀ (chunks : List Retriever.Chunk) (mcqs : List MCQ), mcqs.length < n →
      (∀ r, chunkLoop O n chunks mcqs = .inl r → r.length < n) ∧
      (∀ r, chunkLoop O n chunks mcqs = .inr r → r.length = n) := by
  intro chunks
  induction chunks with
  | nil =>
    intro mcqs hlt
    constructor
    · intro r hr
      simp only [chunkLoop, Sum.inl.injEq] at hr
      subst hr
      exact hlt
    · intro r hr
      simp [chunkLoop] at hr
  | cons ch rest ih =>
    intro mcqs hlt
    have hstep : chunkLoop O n (ch :: rest) mcqs =
        match sentLoop O n ch.chapter
            (extract_candidate_sentences (clean_text ch.text)) mcqs with
        | .inr r => .inr r
        | .inl m' => chunkLoop O n rest m' := rfl
    constructor
    · intro r hr
      rw [hstep] at hr
      cases hs : sentLoop O n ch.chapter
          (extract_candidate_sentences (clean_text ch.text)) mcqs with
      | inr r' =>
        simp only [hs] at hr
        exact absurd hr (by simp)
      | inl m' =>
        simp only [hs] at hr
        exact (ih m' ((sentLoop_len O n ch.chapter _ mcqs hlt).1 m' hs)).1 r hr
    · intro r hr
      rw [hstep] at hr
      cases hs : sentLoop O n ch.chapter
          (extract_candidate_sentences (clean_text ch.text)) mcqs with
      | inr r' =>
        simp only [hs, Sum.inr.injEq] at hr
        subst hr
        exact (sentLoop_len O n ch.chapter _ mcqs hlt).2 r' hs
      | inl m' =>
        simp only [hs] at hr
        exact (ih m' ((sentLoop_len O n ch.chapter _ mcqs hlt).1 m' hs)).2 r hr

end Quiz

/-! ## Claim C1 -/

/-- C1 (counterexample): the sentinel placeholder produced when retrieval
returns nothing has four identical dash options — not pairwise distinct —
and its answer letter `A` indexes an option that differs from the stored
explanation. -/
theorem C1_sentinel_counterexample :
    Quiz.generate_quiz_for_topic O0 [] [] "calculus" 3 =
      [Quiz.sentinelMCQ "calculus"] ∧
    ¬ (Quiz.sentinelMCQ "calculus").options.Nodup ∧
    ¬ ((Quiz.sentinelMCQ "calculus").options[
        ((Quiz.sentinelMCQ "calculus").answer.toNat - 65)]? =
      some (Quiz.sentinelMCQ "calculus").explanation) := by
  refine ⟨rfl, by decide, by decide⟩

/-- C1 (amended): for every MCQ built from a definitional sentence or from
the generic fallback (that is, whenever retrieval is non-empty, so the
sentinel placeholder is not produced), and for every shuffle behaviour
(each draw a permutation): the options field has exactly 4 entries, the
answer is a single letter in A–D, the option at the answer letter's index
equals the stored explanation/correct text, and the 4 entries are pairwise
distinct whenever the correct text is not itself one of the bank
distractors (as is always the case for the generic fallback's templated
statement). -/
theorem C1_quiz_validity_amended (O : Quiz.QuizOracle)
    (store : List Retriever.StoreEntry) (cands : List Int) (topic : String)
    (n : Nat) (hperm : ∀ j l, (O.shuf j l).Perm l)
    (hchunks : Retriever.retrieveFrom store cands ≠ [])
    (m : Quiz.MCQ)
    (hm : m ∈ Quiz.generate_quiz_for_topic O store cands topic n) :
    m.options.length = 4 ∧ m.answer ∈ (['A', 'B', 'C', 'D'] : List Char) ∧
    m.options[m.answer.toNat - 65]? = some m.explanation ∧
    (m.explanation ∉ Quiz.BASE_DISTRACTORS → m.options.Nodup) := by
  unfold Quiz.generate_quiz_for_topic at hm
  simp only [] at hm
  cases hcl : Quiz.chunkLoop O n (Retriever.retrieveFrom store cands) [] with
  | inr r =>
    simp only [hcl] at hm
    exact (Quiz.chunkLoop_good O n hperm _ [] (by simp)).2 r hcl m hm
  | inl mcqs =>
    simp only [hcl] at hm
    cases hch : Retriever.retrieveFrom store cands with
    | nil => exact absurd hch hchunks
    | cons ch0 rest =>
      rw [hch] at hm
      cases mcqs with
      | nil =>
        simp only [] at hm
        rw [List.mem_map] at hm
        obtain ⟨j, _, hfb⟩ := hm
        exact hfb ▸ Quiz.fallback_mcq_good _ _ _ _ _
          (hperm (2 * j)) (hperm (2 * j + 1))
      | cons y ys =>
        simp only [List.isEmpty_cons, Bool.false_eq_true, if_false] at hm
        have hmem : m ∈ y :: ys := (List.take_sublist _ _).mem hm
        exact (Quiz.chunkLoop_good O n hperm _ [] (by simp)).1 (y :: ys)
          (hch ▸ hcl) m hmem

/-- C1 witness: the amended theorem applied to a concrete generic-fallback
MCQ. -/
theorem C1_witness :
    (Quiz.MCQ.mk "ch1"
      "Which of the following best describes probability theory stuff?"
      ["Limit", "Derivative", "Integral",
       "A brief description of probability theory stuff."]
      'D' "A brief description of probability theory stuff.").options.length = 4 ∧
    (Quiz.MCQ.mk "ch1"
      "Which of the following best describes probability theory stuff?"
      ["Limit", "Derivative", "Integral",
       "A brief description of probability theory stuff."]
      'D' "A brief description of probability theory stuff.").answer ∈
        (['A', 'B', 'C', 'D'] : List Char) ∧
    (Quiz.MCQ.mk "ch1"
      "Which of the following best describes probability theory stuff?"
      ["Limit", "Derivative", "Integral",
       "A brief description of probability theory stuff."]
      'D' "A brief description of probability theory stuff.").options[
        ((Quiz.MCQ.mk "ch1"
          "Which of the following best describes probability theory stuff?"
          ["Limit", "Derivative", "Integral",
           "A brief description of probability theory stuff."]
          'D' "A brief description of probability theory stuff.").answer.toNat - 65)]? =
      some (Quiz.MCQ.mk "ch1"
        "Which of the following best describes probability theory stuff?"
        ["Limit", "Derivative", "Integral",
         "A brief description of probability theory stuff."]
        'D' "A brief description of probability theory stuff.").explanation ∧
    ((Quiz.MCQ.mk "ch1"
      "Which of the following best describes probability theory stuff?"
      ["Limit", "Derivative", "Integral",
       "A brief description of probability theory stuff."]
      'D' "A brief description of probability theory stuff.").explanation ∉
        Quiz.BASE_DISTRACTORS →
      (Quiz.MCQ.mk "ch1"
        "Which of the following best describes probability theory stuff?"
        ["Limit", "Derivative", "Integral",
         "A brief description of probability theory stuff."]
        'D' "A brief description of probability theory stuff.").options.Nodup) :=
  C1_quiz_validity_amended O0 probStore [0] "probability theory stuff" 1
    (fun _ l => List.Perm.refl l) (by decide) _ (by decide)

/-! ## Claim C2 -/

/-- C2 (counterexample): at `n_questions = 0` with empty retrieval the
generator returns the one-element sentinel list, of length greater than
`n_questions` — the claimed bound `length ≤ n_questions` fails at 0. -/
theorem C2_zero_questions_counterexample :
    Quiz.generate_quiz_for_topic O0 [] [] "probability" 0 =
      [Quiz.sentinelMCQ "probability"] ∧
    ¬ ((Quiz.generate_quiz_for_topic O0 [] [] "probability" 0).length ≤ 0) := by
  refine ⟨rfl, by decide⟩

/-- C2 (amended): for every topic and every `n_questions ≥ 1`,
`generate_quiz_for_topic` returns at most `n_questions` MCQs and never an
empty sequence, and when retrieval returns zero chunks it returns exactly
the one sentinel placeholder. -/
theorem C2_quiz_bounds_amended (O : Quiz.QuizOracle)
    (store : List Retriever.StoreEntry) (cands : List Int) (topic : String)
    (n : Nat) (h : 1 ≤ n) :
    (Quiz.generate_quiz_for_topic O store cands topic n ≠ [] ∧
     (Quiz.generate_quiz_for_topic O store cands topic n).length ≤ n) ∧
    (Retriever.retrieveFrom store cands = [] →
      Quiz.generate_quiz_for_topic O store cands topic n =
        [Quiz.sentinelMCQ topic]) := by
  constructor
  · cases hcl : Quiz.chunkLoop O n (Retriever.retrieveFrom store cands) [] with
    | inr r =>
      have hgen : Quiz.generate_quiz_for_topic O store cands topic n = r := by
        unfold Quiz.generate_quiz_for_topic
        simp only []
        rw [hcl]
      have hr : r.length = n :=
        (Quiz.chunkLoop_len O n _ [] (by simpa using h)).2 r hcl
      rw [hgen]
      constructor
      · intro hnil
        rw [hnil] at hr
        simp at hr
        omega
      · omega
    | inl mcqs =>
      have hlt : mcqs.length < n :=
        (Quiz.chunkLoop_len O n _ [] (by simpa using h)).1 mcqs hcl
      cases hch : Retriever.retrieveFrom store cands with
      | nil =>
        have hgen : Quiz.generate_quiz_for_topic O store cands topic n =
            [Quiz.sentinelMCQ topic] := by
          unfold Quiz.generate_quiz_for_topic
          simp only []
          rw [hch]
          rfl
        rw [hgen]
        constructor
        · simp
        · simpa using h
      | cons ch0 rest =>
        cases mcqs with
        | nil =>
          have hlen : (Quiz.generate_quiz_for_topic O store cands topic n).length
              = n := by
            unfold Quiz.generate_quiz_for_topic
            simp only []
            rw [hcl, hch]
            simp
          constructor
          · intro hnil
            rw [hnil] at hlen
            simp at hlen
            omega
          · omega
        | cons y ys =>
          have hgen : Quiz.generate_quiz_for_topic O store cands topic n =
              (y :: ys).take n := by
            unfold Quiz.generate_quiz_for_topic
            simp only []
            rw [hcl, hch]
            rfl
          rw [hgen]
          constructor
          · cases n with
            | zero => omega
            | succ k => simp
          · rw [List.length_take]
            omega
  · intro hempty
    unfold Quiz.generate_quiz_for_topic
    simp only []
    rw [hempty]
    rfl

/-- C2 witness: the amended theorem at `n = 3` with empty retrieval. -/
theorem C2_witness :
    (Quiz.generate_quiz_for_topic O0 [] [] "matrices" 3 ≠ [] ∧
     (Quiz.generate_quiz_for_topic O0 [] [] "matrices" 3).length ≤ 3) ∧
    (Retriever.retrieveFrom ([] : List Retriever.StoreEntry) [] = [] →
      Quiz.generate_quiz_for_topic O0 [] [] "matrices" 3 =
        [Quiz.sentinelMCQ "matrices"]) :=
  C2_quiz_bounds_amended O0 [] [] "matrices" 3 (by decide)
